import Mathlib

/-!
Verification development for the pyx preprocessor (`scripts/pyx.py`).

The Python source is shallowly embedded: every definition below mirrors a
function or code block of `pyx.py` (the doc comment of each definition names
the function it translates).  Strings are modelled as Lean `String`s
(lists of characters); Python's `re` patterns are hand-compiled into
deterministic scanners that reproduce the (leftmost, greedy/lazy with
backtracking) match the Python regexes produce on single-line inputs.
Fallible code (`raise`) is modelled with `Except String`.

Python's `eval` appears twice in the source.  It is modelled on the
fragment the program actually exercises, as documented at
`tryEvalMath` and `evaluateCondition`; the modelled fragment is an exact
translation, and no theorem below depends on the behaviour outside it.
-/

set_option maxRecDepth 10000

/-- `class SourceLine`: a line of text together with its origin file and
1-based origin line number (`pyx.py`, lines 23-30). -/
structure SourceLine where
  content : String
  filename : String
  lineno : Nat
deriving Repr, DecidableEq

/-- Python `str.isspace` characters as used by `str.strip()` / `\s`. -/
def pySpace (c : Char) : Bool :=
  c = ' ' || c = '\t' || c = '\n' || c = '\r' || c = '\x0b' || c = '\x0c'

/-- A regex word character (`\w`, ASCII): letters, digits, underscore. -/
def wordChar (c : Char) : Bool :=
  (c ≥ 'a' && c ≤ 'z') || (c ≥ 'A' && c ≤ 'Z') || (c ≥ '0' && c ≤ '9') || c = '_'

/-- ASCII decimal digit (`\d`). -/
def digitChar (c : Char) : Bool := c ≥ '0' && c ≤ '9'

/-- Python `str.lstrip()` on a character list. -/
def lstripL (l : List Char) : List Char := l.dropWhile pySpace

/-- Python `str.rstrip()` on a character list. -/
def rstripL (l : List Char) : List Char := (l.reverse.dropWhile pySpace).reverse

/-- Python `str.strip()` on a character list. -/
def stripL (l : List Char) : List Char := rstripL (lstripL l)

/-- Python `str.strip()`. -/
def pyStrip (s : String) : String := String.mk (stripL s.data)

/-- Python `str.lstrip()`. -/
def pyLstrip (s : String) : String := String.mk (lstripL s.data)

/-- Python `str.rstrip('\n')` (strips only trailing newlines). -/
def rstripNl (s : String) : String :=
  String.mk ((s.data.reverse.dropWhile (· = '\n')).reverse)

/-- Python `str.startswith`. -/
def startsWithS (pre s : String) : Bool := List.isPrefixOf pre.data s.data

/-- Python `str.endswith` for a single character. -/
def endsWithC (c : Char) (s : String) : Bool :=
  match s.data.reverse with
  | [] => false
  | d :: _ => d = c

/-- `get_indent_length` (`pyx.py`, lines 123-124): number of leading
whitespace characters. -/
def getIndentLength (s : String) : Nat := (s.data.takeWhile pySpace).length

/-- Leading whitespace run of a line, i.e. the text captured by the Python
pattern `(\s*)` anchored at the start (`re.match(r'^(\s*)', ...)`). -/
def leadingWs (s : String) : String := String.mk (s.data.takeWhile pySpace)

/-- Python `str.split(sep)` for a one-character separator, keeping empty
pieces (used for `split(':')` and `split(',')`). -/
def splitOnCharL (sep : Char) : List Char → List (List Char)
  | [] => [[]]
  | c :: rest =>
    let r := splitOnCharL sep rest
    if c = sep then [] :: r
    else
      match r with
      | [] => [[c]]
      | p :: ps => (c :: p) :: ps

/-- Python `str.split(sep)` on strings. -/
def splitOnChar (sep : Char) (s : String) : List String :=
  (splitOnCharL sep s.data).map String.mk

/-- Helper for `pySplitWs`: accumulates the current token reversed. -/
def pySplitWsGo : List Char → List Char → List (List Char)
  | [], cur => if cur.isEmpty then [] else [cur.reverse]
  | c :: rest, cur =>
    if pySpace c then
      if cur.isEmpty then pySplitWsGo rest []
      else cur.reverse :: pySplitWsGo rest []
    else pySplitWsGo rest (c :: cur)

/-- Python `str.split()` (split on whitespace runs, no empty pieces). -/
def pySplitWsL (l : List Char) : List (List Char) := pySplitWsGo l []

/-- Python `str.split()` on strings. -/
def pySplitWs (s : String) : List String := (pySplitWsL s.data).map String.mk

/-- Python `str.split(None, 1)`: first whitespace-delimited token, then the
remainder with its leading whitespace removed (kept only if non-empty). -/
def pySplitWs1 (s : String) : List String :=
  let l := lstripL s.data
  match l with
  | [] => []
  | _ =>
    let tok := l.takeWhile (fun d => !pySpace d)
    let rest := (l.dropWhile (fun d => !pySpace d)).dropWhile pySpace
    if rest.isEmpty then [String.mk tok] else [String.mk tok, String.mk rest]

/-- Python `str.split(None, 2)`: two tokens then the raw remainder. -/
def pySplitWs2 (s : String) : List String :=
  let l := lstripL s.data
  match l with
  | [] => []
  | _ =>
    let tok := l.takeWhile (fun d => !pySpace d)
    let rest := (l.dropWhile (fun d => !pySpace d)).dropWhile pySpace
    match rest with
    | [] => [String.mk tok]
    | _ =>
      let tok2 := rest.takeWhile (fun d => !pySpace d)
      let rest2 := (rest.dropWhile (fun d => !pySpace d)).dropWhile pySpace
      if rest2.isEmpty then [String.mk tok, String.mk tok2]
      else [String.mk tok, String.mk tok2, String.mk rest2]

/-- Python `str.replace(old, new)` (all non-overlapping occurrences, left to
right).  The degenerate `old = ""` case (which in Python interleaves `new`
everywhere) never occurs in the program and is modelled as the identity. -/
def replaceAllGo (old new : List Char) : Nat → List Char → List Char
  | 0, text => text
  | _ + 1, [] => []
  | fuel + 1, c :: rest =>
    if List.isPrefixOf old (c :: rest) then
      new ++ replaceAllGo old new fuel (List.drop old.length (c :: rest))
    else
      c :: replaceAllGo old new fuel rest

/-- Python `str.replace(old, new)`. -/
def replaceAll (text old new : String) : String :=
  if old.data.isEmpty then text
  else String.mk (replaceAllGo old.data new.data (text.data.length + 1) text.data)

/-- Worker for `smart_split_args` (`pyx.py`, lines 53-94): bracket- and
quote-aware split on `,`, with backslash escapes.  State mirrors the Python
locals `args` (reversed), `current` (reversed), `depth`, `in_quote`,
`quote_char`, `escape`. -/
def smartSplitGo : List Char → List (List Char) → List Char → Int → Bool → Option Char → Bool → List (List Char)
  | [], acc, cur, _, _, _, _ =>
    (if cur.isEmpty then acc else stripL cur.reverse :: acc).reverse
  | ch :: rest, acc, cur, depth, inQuote, quoteChar, escape =>
    if escape then smartSplitGo rest acc (ch :: cur) depth inQuote quoteChar false
    else if ch = '\\' then smartSplitGo rest acc (ch :: cur) depth inQuote quoteChar true
    else if inQuote then
      if some ch = quoteChar then smartSplitGo rest acc (ch :: cur) depth false none false
      else smartSplitGo rest acc (ch :: cur) depth true quoteChar false
    else if ch = '"' || ch = '\'' then
      smartSplitGo rest acc (ch :: cur) depth true (some ch) false
    else if ch = '(' || ch = '[' || ch = '\x7b' then
      smartSplitGo rest acc (ch :: cur) (depth + 1) false none false
    else if ch = ')' || ch = ']' || ch = '\x7d' then
      smartSplitGo rest acc (ch :: cur) (depth - 1) false none false
    else if ch = ',' && depth = 0 then
      smartSplitGo rest (stripL cur.reverse :: acc) [] depth false none false
    else smartSplitGo rest acc (ch :: cur) depth false none false

/-- `smart_split_args` (`pyx.py`, lines 53-94).  Each piece is stripped and
empty pieces are dropped (the final `[a for a in args if a]`). -/
def smartSplitArgs (s : String) : List String :=
  ((smartSplitGo s.data [] [] 0 false none false).filter (fun a => !a.isEmpty)).map String.mk

/-- Worker for `is_index_safe` (`pyx.py`, lines 186-195), preserving the
source's check order (target test, then `#`, then escape handling). -/
def isIndexSafeGo : List Char → Nat → Nat → Bool → Bool → Bool → Bool
  | [], _, _, _, _, _ => true
  | c :: rest, i, target, inSq, inDq, escape =>
    if i = target then !(inSq || inDq)
    else if c = '#' && !inSq && !inDq then false
    else if escape then isIndexSafeGo rest (i + 1) target inSq inDq false
    else if c = '\\' then isIndexSafeGo rest (i + 1) target inSq inDq true
    else if c = '\'' && !inDq then isIndexSafeGo rest (i + 1) target (!inSq) inDq false
    else if c = '"' && !inSq then isIndexSafeGo rest (i + 1) target inSq (!inDq) false
    else isIndexSafeGo rest (i + 1) target inSq inDq false

/-- `is_index_safe` (`pyx.py`, lines 186-195): is the character index
outside string literals and before any unquoted `#`? -/
def isIndexSafe (s : String) (target : Nat) : Bool :=
  isIndexSafeGo s.data 0 target false false false

/-- Worker for `split_comment` (`pyx.py`, lines 197-206). -/
def splitCommentGo : List Char → List Char → Bool → Bool → Bool → List Char × List Char
  | [], acc, _, _, _ => (acc.reverse, [])
  | c :: rest, acc, inSq, inDq, escape =>
    if c = '#' && !inSq && !inDq then (acc.reverse, c :: rest)
    else if escape then splitCommentGo rest (c :: acc) inSq inDq false
    else if c = '\\' then splitCommentGo rest (c :: acc) inSq inDq true
    else if c = '\'' && !inDq then splitCommentGo rest (c :: acc) (!inSq) inDq false
    else if c = '"' && !inSq then splitCommentGo rest (c :: acc) inSq (!inDq) false
    else splitCommentGo rest (c :: acc) inSq inDq false

/-- `split_comment` (`pyx.py`, lines 197-206): split a line at the first
unquoted `#` (the comment part keeps the `#`). -/
def splitComment (s : String) : String × String :=
  let p := splitCommentGo s.data [] false false false
  (String.mk p.1, String.mk p.2)

/-- `dedent_block` (`pyx.py`, lines 106-121): remove the indentation of the
first non-blank line from every line; blank lines become a bare newline. -/
def dedentBlock (lines : List SourceLine) : List SourceLine :=
  match lines with
  | [] => []
  | _ =>
    let firstValid := lines.find? (fun l => pyStrip l.content ≠ "")
    let indentLen := match firstValid with
      | some l => getIndentLength l.content
      | none => 0
    lines.map (fun sl =>
      if pyStrip sl.content = "" then ⟨"\n", sl.filename, sl.lineno⟩
      else if sl.content.data.length ≥ indentLen then
        ⟨String.mk (sl.content.data.drop indentLen), sl.filename, sl.lineno⟩
      else ⟨pyLstrip sl.content, sl.filename, sl.lineno⟩)

/-- A macro-expansion binding value: a plain string, or a list of strings
for variadic bindings (`pyx.py` stores Python `str` or `list`). -/
inductive PyVal where
  | scalar (s : String)
  | vlist (xs : List String)
deriving Repr, DecidableEq

/-- Rendering of a binding value for substitution (`safe_replace`,
`pyx.py`, lines 97-101): lists render comma-joined. -/
def pyValStr : PyVal → String
  | .scalar s => s
  | .vlist xs => String.intercalate ", " xs

/-- Bindings (`replacements`): an insertion-ordered association list
standing for the Python dict. -/
abbrev Repl := List (String × PyVal)

/-- Lookup in a `Repl` (Python `var_name in replacements` / indexing). -/
def replLookup (m : Repl) (k : String) : Option PyVal :=
  (m.find? (fun kv => kv.1 = k)).map (·.2)

/-- Python dict assignment `m[k] = v`, preserving insertion order. -/
def replUpdate (m : Repl) (k : String) (v : PyVal) : Repl :=
  if m.any (fun kv => kv.1 = k) then
    m.map (fun kv => if kv.1 = k then (k, v) else kv)
  else m ++ [(k, v)]

/-- Word-character test on an optional character (absent counts as
non-word, as at a string end for `\b`). -/
def wordOpt : Option Char → Bool
  | none => false
  | some c => wordChar c

/-- Worker for one `re.sub(r'\b<k>\b', v, text)` round inside
`safe_replace`: left-to-right non-overlapping replacement of `k` at word
boundaries.  `kh`/`kl` are the word-character statuses of the ends of `k`. -/
def subWordGo (k v : List Char) (kh kl : Bool) : Nat → Option Char → List Char → List Char
  | 0, _, text => text
  | _ + 1, _, [] => []
  | fuel + 1, prev, c :: rest =>
    if List.isPrefixOf k (c :: rest) && (wordOpt prev ≠ kh) &&
        (kl ≠ wordOpt (((c :: rest).drop k.length).head?)) then
      v ++ subWordGo k v kh kl fuel (some (k.getLastD ' ')) ((c :: rest).drop k.length)
    else
      c :: subWordGo k v kh kl fuel (some c) rest

/-- One word-bounded textual substitution round (the Python statement
`text = re.sub(r'\b' + re.escape(k) + r'\b', val_str, text)`).  The
degenerate empty-key pattern never arises in the program and is modelled
as the identity. -/
def subWord (text k v : List Char) : List Char :=
  match k with
  | [] => text
  | kh :: _ => subWordGo k v (wordChar kh) (wordChar (k.getLastD ' ')) (text.length + 1) none text

/-- `safe_replace` (`pyx.py`, lines 96-104): substitute every binding in
insertion order, each at word boundaries. -/
def safeReplace (text : String) (mapping : Repl) : String :=
  mapping.foldl (fun t kv => String.mk (subWord t.data kv.1.data (pyValStr kv.2).data)) text

/-- Token of the arithmetic fragment accepted by `try_eval_math`'s
character class `[\d\s+\-*/%().]` (`pyx.py`, line 128). -/
inductive MTok where
  | num (n : Nat)
  | addT
  | subT
  | mulT
  | modT
  | powT
  | lpT
  | rpT
deriving Repr, DecidableEq

/-- Tokenizer for the `eval` call in `try_eval_math`.  `none` stands for an
expression outside the modelled fragment: `/` (true division, whose float
results are not modelled) and `.` (float literals) make the model treat
the evaluation as failed, which `try_eval_math` turns into "keep the raw
text".  No theorem below evaluates such an argument. -/
def mTokenizeGo : Nat → List Char → Option Nat → List MTok → Option (List MTok)
  | 0, _, _, _ => none
  | _ + 1, [], curNum, acc =>
    some ((match curNum with | some n => MTok.num n :: acc | none => acc).reverse)
  | fuel + 1, c :: rest, curNum, acc =>
    if digitChar c then
      mTokenizeGo fuel rest (some ((curNum.getD 0) * 10 + (c.toNat - '0'.toNat))) acc
    else
      let acc := match curNum with | some n => MTok.num n :: acc | none => acc
      if pySpace c then mTokenizeGo fuel rest none acc
      else if c = '+' then mTokenizeGo fuel rest none (MTok.addT :: acc)
      else if c = '-' then mTokenizeGo fuel rest none (MTok.subT :: acc)
      else if c = '%' then mTokenizeGo fuel rest none (MTok.modT :: acc)
      else if c = '(' then mTokenizeGo fuel rest none (MTok.lpT :: acc)
      else if c = ')' then mTokenizeGo fuel rest none (MTok.rpT :: acc)
      else if c = '*' then
        if rest.head? = some '*' then mTokenizeGo fuel rest.tail none (MTok.powT :: acc)
        else mTokenizeGo fuel rest none (MTok.mulT :: acc)
      else none

/-- Tokenize an arithmetic expression (the fuel is exact: each step
consumes at least one character). -/
def mTokenize (l : List Char) : Option (List MTok) := mTokenizeGo (l.length + 1) l none []

mutual

/-- Python expression: `term (('+'|'-') term)*`. -/
def mExpr : Nat → List MTok → Option (Int × List MTok)
  | 0, _ => none
  | fuel + 1, ts => do
    let (v, ts) ← mTerm fuel ts
    mExprTail fuel v ts

/-- Tail of additive chains. -/
def mExprTail : Nat → Int → List MTok → Option (Int × List MTok)
  | 0, _, _ => none
  | fuel + 1, v, ts =>
    match ts with
    | MTok.addT :: rest => do
      let (w, ts2) ← mTerm fuel rest
      mExprTail fuel (v + w) ts2
    | MTok.subT :: rest => do
      let (w, ts2) ← mTerm fuel rest
      mExprTail fuel (v - w) ts2
    | _ => some (v, ts)

/-- Python term: `unary (('*'|'%') unary)*`. -/
def mTerm : Nat → List MTok → Option (Int × List MTok)
  | 0, _ => none
  | fuel + 1, ts => do
    let (v, ts) ← mUnary fuel ts
    mTermTail fuel v ts

/-- Tail of multiplicative chains.  `%` is Python's floor modulo
(`Int.fmod`), undefined for a zero divisor (`ZeroDivisionError` in the
source, which `try_eval_math` swallows). -/
def mTermTail : Nat → Int → List MTok → Option (Int × List MTok)
  | 0, _, _ => none
  | fuel + 1, v, ts =>
    match ts with
    | MTok.mulT :: rest => do
      let (w, ts2) ← mUnary fuel rest
      mTermTail fuel (v * w) ts2
    | MTok.modT :: rest => do
      let (w, ts2) ← mUnary fuel rest
      if w = 0 then none else mTermTail fuel (Int.fmod v w) ts2
    | _ => some (v, ts)

/-- Python unary `+`/`-` (binding looser than `**`). -/
def mUnary : Nat → List MTok → Option (Int × List MTok)
  | 0, _ => none
  | fuel + 1, ts =>
    match ts with
    | MTok.addT :: rest => mUnary fuel rest
    | MTok.subT :: rest => do
      let (v, ts2) ← mUnary fuel rest
      some (-v, ts2)
    | _ => mPower fuel ts

/-- Python power: `atom ('**' unary)?`, right associative.  A negative
exponent yields a float in Python and is outside the modelled fragment. -/
def mPower : Nat → List MTok → Option (Int × List MTok)
  | 0, _ => none
  | fuel + 1, ts => do
    let (v, ts) ← mAtom fuel ts
    match ts with
    | MTok.powT :: rest => do
      let (e, ts2) ← mUnary fuel rest
      if e < 0 then none else some (v ^ e.toNat, ts2)
    | _ => some (v, ts)

/-- Atom: a number or a parenthesised expression. -/
def mAtom : Nat → List MTok → Option (Int × List MTok)
  | 0, _ => none
  | fuel + 1, ts =>
    match ts with
    | MTok.num n :: rest => some ((n : Int), rest)
    | MTok.lpT :: rest => do
      let (v, ts2) ← mExpr fuel rest
      match ts2 with
      | MTok.rpT :: ts3 => some (v, ts3)
      | _ => none
    | _ => none

end

/-- The character class `[\d\s+\-*/%().]` of `try_eval_math`. -/
def mathClassChar (c : Char) : Bool :=
  digitChar c || pySpace c || c = '+' || c = '-' || c = '*' || c = '/' ||
    c = '%' || c = '(' || c = ')' || c = '.'

/-- `try_eval_math` (`pyx.py`, lines 126-133): strip the text; if it
consists only of the arithmetic character class, try to evaluate it and on
success return the decimal rendering of the result; otherwise (no match,
or the evaluation fails) return the stripped text. -/
def tryEvalMath (text : String) : String :=
  let t := pyStrip text
  if !t.data.isEmpty && t.data.all mathClassChar then
    match mTokenize t.data with
    | none => t
    | some ts =>
      match mExpr (5 * ts.length + 10) ts with
      | some (v, []) => toString v
      | _ => t
  else t

/-- Python `int(s)`: strip whitespace, optional sign, decimal digits
(underscored literals are not modelled; the program never produces them). -/
def pyIntParse (s : String) : Option Int :=
  let l := stripL s.data
  let sd : Int × List Char :=
    match l with
    | '-' :: rest => (-1, rest)
    | '+' :: rest => (1, rest)
    | _ => (1, l)
  if !sd.2.isEmpty && sd.2.all digitChar then
    some (sd.1 * ((sd.2.foldl (fun acc c => acc * 10 + (c.toNat - '0'.toNat)) 0 : Nat) : Int))
  else none

/-- CPython slice-index normalisation (`PySlice_AdjustIndices`) for an
explicit integer bound. -/
def pySliceNorm (i n step : Int) : Int :=
  let j := if i < 0 then i + n else i
  if j < 0 then (if step < 0 then -1 else 0)
  else if j ≥ n then (if step < 0 then n - 1 else n)
  else j

/-- Collect the elements of a slice walk. -/
def pySliceCollect (xs : List String) : Nat → Int → Int → Int → List String
  | 0, _, _, _ => []
  | fuel + 1, i, b, step =>
    if (step > 0 && i < b) || (step < 0 && i > b) then
      xs.getD i.toNat "" :: pySliceCollect xs fuel (i + step) b step
    else []

/-- Python `xs[a:b:st]` for explicit integer `a`, `b` and optional `st`
(`None` meaning 1); `none` is the `ValueError` raised for a zero step. -/
def pySliceList (xs : List String) (a b : Int) (st : Option Int) : Option (List String) :=
  let step := st.getD 1
  if step = 0 then none
  else
    let n : Int := xs.length
    some (pySliceCollect xs (xs.length + 1) (pySliceNorm a n step) (pySliceNorm b n step) step)

/-- Parse a regex identifier `[a-zA-Z_]\w*` (greedy) at the head of the
text, returning it with the remainder. -/
def identAt : List Char → Option (List Char × List Char)
  | [] => none
  | c :: rest =>
    if (c ≥ 'a' && c ≤ 'z') || (c ≥ 'A' && c ≤ 'Z') || c = '_' then
      some (c :: rest.takeWhile wordChar, rest.dropWhile wordChar)
    else none

/-- Try the pattern `!len\(\s*([a-zA-Z_]\w*)\s*\)` at the head of the text
(`sub_len`, `pyx.py`, lines 136-143).  Returns the replacement text and the
remainder after the match: list bindings yield their length, scalar
bindings yield `"1"`, unbound names keep the matched text. -/
def matchLenAt (repl : Repl) (text : List Char) : Option (List Char × List Char) :=
  if List.isPrefixOf "!len(".data text then
    let r0 := text.drop 5
    let ws1 := r0.takeWhile pySpace
    let r1 := r0.dropWhile pySpace
    match identAt r1 with
    | none => none
    | some (nm, r2) =>
      let ws2 := r2.takeWhile pySpace
      let r3 := r2.dropWhile pySpace
      match r3 with
      | ')' :: r4 =>
        let matched := "!len(".data ++ ws1 ++ nm ++ ws2 ++ [')']
        let out := match replLookup repl (String.mk nm) with
          | some (PyVal.vlist xs) => (toString xs.length).data
          | some (PyVal.scalar _) => "1".data
          | none => matched
        some (out, r4)
      | _ => none
  else none

/-- The `re.sub` scan for `!len(...)` (left to right, non-overlapping). -/
def subLenGo (repl : Repl) : Nat → List Char → List Char
  | 0, text => text
  | _ + 1, [] => []
  | fuel + 1, c :: rest =>
    match matchLenAt repl (c :: rest) with
    | some (out, remaining) => out ++ subLenGo repl fuel remaining
    | none => c :: subLenGo repl fuel rest

/-- The integer-index case of `sub_accessor` (`pyx.py`, lines 166-175):
a list binding is indexed with Python semantics (negative indices count
from the end; out of range raises naming the variable, index and length);
a scalar binding admits only index 0 (otherwise raising with the variable
name). -/
def accessorIndex (nmS : String) (val : PyVal) (idx : Int) : Except String String :=
  match val with
  | PyVal.vlist xs =>
    if 0 ≤ idx && idx < (xs.length : Int) then Except.ok (xs.getD idx.toNat "")
    else if -(xs.length : Int) ≤ idx && idx < 0 then
      Except.ok (xs.getD ((xs.length : Int) + idx).toNat "")
    else
      Except.error ("Macro index out of range: " ++ nmS ++ "![" ++
        toString idx ++ "] (len=" ++ toString xs.length ++ ")")
  | PyVal.scalar s =>
    if idx = 0 then Except.ok s
    else Except.error ("Cannot use index operator ![] on non-variadic: " ++ nmS)

/-- Try the pattern `([a-zA-Z_]\w*)!\[\s*(.*?)\s*\]` at the head of the
text and perform `sub_accessor` (`pyx.py`, lines 145-177): indexing (with
Python negative indices) on list bindings, index `0` on scalar bindings,
slices comma-joined; out-of-range indices and non-zero scalar indices
raise (`RuntimeError(str(e))` in the source); a failed `int()` inside a
slice keeps the matched text unchanged. -/
def accessorAt (repl : Repl) (text : List Char) : Option (Except String (List Char) × List Char) :=
  match identAt text with
  | none => none
  | some (nm, r1) =>
    match r1 with
    | '!' :: '[' :: r2 =>
      let inner := r2.takeWhile (· ≠ ']')
      match r2.dropWhile (· ≠ ']') with
      | ']' :: r3 =>
        let contentL := stripL inner
        if contentL.contains '\n' then none
        else
          let matched := nm ++ ['!', '['] ++ inner ++ [']']
          let nmS := String.mk nm
          let content := String.mk contentL
          match replLookup repl nmS with
          | none => some (Except.ok matched, r3)
          | some val =>
            if contentL.contains ':' then
              let valList := match val with
                | PyVal.vlist xs => xs
                | PyVal.scalar s => [s]
              let parts := splitOnChar ':' content
              let p0 := pyStrip (parts.getD 0 "")
              let p1 := pyStrip (parts.getD 1 "")
              let startV := if p0 = "" then some (0 : Int) else pyIntParse p0
              let endV := if p1 = "" then some ((valList.length : Int)) else pyIntParse p1
              let stepV : Option (Option Int) :=
                if parts.length > 2 then
                  let p2 := pyStrip (parts.getD 2 "")
                  if p2 = "" then some none else (pyIntParse p2).map some
                else some none
              match startV, endV, stepV with
              | some a, some b, some st =>
                match pySliceList valList a b st with
                | some sliced => some (Except.ok (String.intercalate ", " sliced).data, r3)
                | none => some (Except.ok matched, r3)
              | _, _, _ => some (Except.ok matched, r3)
            else
              match pyIntParse content with
              | none =>
                some (Except.error ("invalid literal for int() with base 10: '" ++ content ++ "'"), r3)
              | some idx => some ((accessorIndex nmS val idx).map String.data, r3)
      | _ => none
    | _ => none

/-- The `re.sub` scan for `x![...]` accessors; an error raised by the
substitution function aborts the whole rewrite, as in the source. -/
def subAccessorGo (repl : Repl) : Nat → List Char → Except String (List Char)
  | 0, text => Except.ok text
  | _ + 1, [] => Except.ok []
  | fuel + 1, c :: rest =>
    match accessorAt repl (c :: rest) with
    | some (Except.error e, _) => Except.error e
    | some (Except.ok out, remaining) => do
      let t ← subAccessorGo repl fuel remaining
      Except.ok (out ++ t)
    | none => do
      let t ← subAccessorGo repl fuel rest
      Except.ok (c :: t)

/-- `process_macro_ops` (`pyx.py`, lines 135-178): rewrite `!len(x)` forms,
then `x![...]` accessor forms. -/
def processMacroOps (text : String) (repl : Repl) : Except String String := do
  let t1 := subLenGo repl (text.data.length + 1) text.data
  let t2 ← subAccessorGo repl (t1.length + 1) t1
  Except.ok (String.mk t2)

/-- After a candidate LHS, match `\s*%([+\-*/])=` and return the operator
and the text following the `=` (part of the `process_mod_ops` pattern,
`pyx.py`, line 213). -/
def modTail (rest : List Char) : Option (Char × List Char) :=
  match rest.dropWhile pySpace with
  | '%' :: op :: '=' :: r2 =>
    if op = '+' || op = '-' || op = '*' || op = '/' then some (op, r2) else none
  | _ => none

/-- Match `\s*(.+)$` against the text after `=`: greedy whitespace skip,
then a non-empty newline-free remainder (`$` sits before a single trailing
newline); an all-whitespace body backtracks to its last character. -/
def rhsOf (r2 : List Char) : Option (List Char) :=
  let body := if r2.getLast? = some '\n' then r2.dropLast else r2
  if body.isEmpty || body.contains '\n' then none
  else
    let t := body.dropWhile pySpace
    if t.isEmpty then some [body.getLastD ' '] else some t

/-- The lazy `(.+?)` search of the `process_mod_ops` pattern: try LHS
lengths ascending, at each split requiring `\s*%([+\-*/])=\s*(.+)$`. -/
def modKLoop (lhsRev : List Char) : List Char → Option (List Char × Char × List Char)
  | [] => none
  | c :: rest =>
    if c = '\n' then none
    else
      let lhsRev' := c :: lhsRev
      match modTail rest with
      | some (op, r2) =>
        match rhsOf r2 with
        | some rhs => some (lhsRev'.reverse, op, rhs)
        | none => modKLoop lhsRev' rest
      | none => modKLoop lhsRev' rest

/-- The greedy `^(\s*)` search: try indent lengths descending from the
maximal whitespace run, backtracking into it if needed. -/
def modIndentLoop (code : List Char) : Nat → Option (List Char × List Char × Char × List Char)
  | 0 => (modKLoop [] code).map (fun r => (([] : List Char), r.1, r.2.1, r.2.2))
  | j + 1 =>
    match modKLoop [] (code.drop (j + 1)) with
    | some (lhs, op, rhs) => some (code.take (j + 1), lhs, op, rhs)
    | none => modIndentLoop code j

/-- `re.match(r'^(\s*)(.+?)\s*%([+\-*/])=\s*(.+)$', code_part)`: returns
the captured indent, raw LHS, operator and raw RHS groups. -/
def modOpMatch (code : List Char) : Option (List Char × List Char × Char × List Char) :=
  modIndentLoop code (code.takeWhile pySpace).length

/-- `process_mod_ops` (`pyx.py`, lines 208-231): when a modulus is set,
rewrite `LHS %OP= RHS` lines into their modular form, preserving any
`#` comment. -/
def processModOps (text : String) (modValue : Option String) : String :=
  match modValue with
  | none => text
  | some mv =>
    if mv = "" then text
    else
      let pc := splitComment text
      match modOpMatch pc.1.data with
      | some (ind, lhsRaw, op, rhsRaw) =>
        let indent := String.mk ind
        let lhs := String.mk (stripL lhsRaw)
        let rhs := String.mk (stripL rhsRaw)
        let modExpr := "(" ++ mv ++ ")"
        let newCode :=
          if op = '/' then
            indent ++ lhs ++ "=(" ++ lhs ++ "*pow(" ++ rhs ++ "," ++ modExpr ++ "-2," ++
              modExpr ++ "))%" ++ modExpr
          else
            indent ++ lhs ++ "=(" ++ lhs ++ String.mk [op] ++ "(" ++ rhs ++ "))%" ++ modExpr
        let combined := if pc.2 ≠ "" then newCode ++ " " ++ pc.2 else newCode
        String.mk (rstripL combined.data) ++ "\n"
      | none => text

/-- Token for the conditional-expression evaluator. -/
inductive CTok where
  | cnum (n : Nat)
  | cid (s : String)
  | cop (s : String)
  | clp
  | crp
deriving Repr, DecidableEq

/-- Tokenizer for `evaluate_condition` expressions.  `none` marks an
expression outside the modelled fragment (treated as an evaluation
failure, hence `False` — the source maps every exception to `False`). -/
def cTokenizeGo : Nat → List Char → List CTok → Option (List CTok)
  | 0, _, _ => none
  | _ + 1, [], acc => some acc.reverse
  | fuel + 1, c :: rest, acc =>
    if pySpace c then cTokenizeGo fuel rest acc
    else if digitChar c then
      let ds := c :: rest.takeWhile digitChar
      cTokenizeGo fuel (rest.dropWhile digitChar)
        (CTok.cnum (ds.foldl (fun a d => a * 10 + (d.toNat - '0'.toNat)) 0) :: acc)
    else if (c ≥ 'a' && c ≤ 'z') || (c ≥ 'A' && c ≤ 'Z') || c = '_' then
      cTokenizeGo fuel (rest.dropWhile wordChar)
        (CTok.cid (String.mk (c :: rest.takeWhile wordChar)) :: acc)
    else if c = '(' then cTokenizeGo fuel rest (CTok.clp :: acc)
    else if c = ')' then cTokenizeGo fuel rest (CTok.crp :: acc)
    else if c = '=' then
      if rest.head? = some '=' then cTokenizeGo fuel rest.tail (CTok.cop "==" :: acc) else none
    else if c = '!' then
      if rest.head? = some '=' then cTokenizeGo fuel rest.tail (CTok.cop "!=" :: acc) else none
    else if c = '<' then
      if rest.head? = some '=' then cTokenizeGo fuel rest.tail (CTok.cop "<=" :: acc)
      else cTokenizeGo fuel rest (CTok.cop "<" :: acc)
    else if c = '>' then
      if rest.head? = some '=' then cTokenizeGo fuel rest.tail (CTok.cop ">=" :: acc)
      else cTokenizeGo fuel rest (CTok.cop ">" :: acc)
    else if c = '+' || c = '-' || c = '*' || c = '%' then
      cTokenizeGo fuel rest (CTok.cop (String.mk [c]) :: acc)
    else none

/-- Tokenize a conditional expression. -/
def cTokenize (l : List Char) : Option (List CTok) := cTokenizeGo (l.length + 1) l []

/-- Expression tree for `evaluate_condition`. -/
inductive CExpr where
  | cnumE (n : Nat)
  | cidE (s : String)
  | cbinE (op : String) (a b : CExpr)
  | cnotE (a : CExpr)
  | cnegE (a : CExpr)
  | cposE (a : CExpr)
deriving Repr

/-- Runtime value of the conditional evaluator: Python ints (booleans
included, as 0/1) and strings. -/
inductive CVal where
  | ci (i : Int)
  | cs (s : String)
deriving Repr, DecidableEq

/-- Python truthiness for the modelled values. -/
def cTruthy : CVal → Bool
  | .ci i => i ≠ 0
  | .cs s => s ≠ ""

/-- Binary operators of the modelled fragment (comparisons return 0/1;
`==`/`!=` across types compare unequal without error; ordered comparisons
across types raise, i.e. yield `none`). -/
def cBinOp (op : String) : CVal → CVal → Option CVal
  | .ci x, .ci y =>
    if op = "+" then some (.ci (x + y))
    else if op = "-" then some (.ci (x - y))
    else if op = "*" then some (.ci (x * y))
    else if op = "%" then (if y = 0 then none else some (.ci (Int.fmod x y)))
    else if op = "==" then some (.ci (if x = y then 1 else 0))
    else if op = "!=" then some (.ci (if x = y then 0 else 1))
    else if op = "<" then some (.ci (if x < y then 1 else 0))
    else if op = "<=" then some (.ci (if x ≤ y then 1 else 0))
    else if op = ">" then some (.ci (if x > y then 1 else 0))
    else if op = ">=" then some (.ci (if x ≥ y then 1 else 0))
    else none
  | .cs x, .cs y =>
    if op = "+" then some (.cs (x ++ y))
    else if op = "==" then some (.ci (if x = y then 1 else 0))
    else if op = "!=" then some (.ci (if x = y then 0 else 1))
    else if op = "<" then some (.ci (if x < y then 1 else 0))
    else if op = "<=" then some (.ci (if x < y ∨ x = y then 1 else 0))
    else if op = ">" then some (.ci (if y < x then 1 else 0))
    else if op = ">=" then some (.ci (if y < x ∨ x = y then 1 else 0))
    else none
  | va, vb =>
    if op = "==" then some (.ci 0)
    else if op = "!=" then some (.ci 1)
    else (match va, vb with | _, _ => none)

/-- Evaluate a conditional expression tree; `none` is a raised exception.
`and`/`or` short-circuit and return an operand value, as in Python. -/
def cEval : CExpr → Option CVal
  | .cnumE n => some (.ci n)
  | .cidE s => some (.cs s)
  | .cnotE a => do
    let v ← cEval a
    some (.ci (if cTruthy v then 0 else 1))
  | .cnegE a => do
    let v ← cEval a
    match v with
    | .ci i => some (.ci (-i))
    | _ => none
  | .cposE a => do
    let v ← cEval a
    match v with
    | .ci i => some (.ci i)
    | _ => none
  | .cbinE op a b =>
    if op = "or" then do
      let va ← cEval a
      if cTruthy va then some va else cEval b
    else if op = "and" then do
      let va ← cEval a
      if cTruthy va then cEval b else some va
    else do
      let va ← cEval a
      let vb ← cEval b
      cBinOp op va vb

mutual

/-- Conditional grammar: `or`-chain. -/
def cParseOr : Nat → List CTok → Option (CExpr × List CTok)
  | 0, _ => none
  | fuel + 1, ts => do
    let (a, ts) ← cParseAnd fuel ts
    cParseOrTail fuel a ts

/-- Tail of `or`-chains (left associative). -/
def cParseOrTail : Nat → CExpr → List CTok → Option (CExpr × List CTok)
  | 0, _, _ => none
  | fuel + 1, a, ts =>
    match ts with
    | CTok.cid "or" :: rest => do
      let (b, ts2) ← cParseAnd fuel rest
      cParseOrTail fuel (CExpr.cbinE "or" a b) ts2
    | _ => some (a, ts)

/-- `and`-chain. -/
def cParseAnd : Nat → List CTok → Option (CExpr × List CTok)
  | 0, _ => none
  | fuel + 1, ts => do
    let (a, ts) ← cParseNot fuel ts
    cParseAndTail fuel a ts

/-- Tail of `and`-chains. -/
def cParseAndTail : Nat → CExpr → List CTok → Option (CExpr × List CTok)
  | 0, _, _ => none
  | fuel + 1, a, ts =>
    match ts with
    | CTok.cid "and" :: rest => do
      let (b, ts2) ← cParseNot fuel rest
      cParseAndTail fuel (CExpr.cbinE "and" a b) ts2
    | _ => some (a, ts)

/-- `not` prefix. -/
def cParseNot : Nat → List CTok → Option (CExpr × List CTok)
  | 0, _ => none
  | fuel + 1, ts =>
    match ts with
    | CTok.cid "not" :: rest => do
      let (a, ts2) ← cParseNot fuel rest
      some (CExpr.cnotE a, ts2)
    | _ => cParseCmp fuel ts

/-- A single (unchained) comparison; comparison chains are outside the
modelled fragment and fail to parse. -/
def cParseCmp : Nat → List CTok → Option (CExpr × List CTok)
  | 0, _ => none
  | fuel + 1, ts => do
    let (a, ts) ← cParseArith fuel ts
    match ts with
    | CTok.cop op :: rest =>
      if op = "==" || op = "!=" || op = "<" || op = "<=" || op = ">" || op = ">=" then do
        let (b, ts2) ← cParseArith fuel rest
        some (CExpr.cbinE op a b, ts2)
      else some (a, CTok.cop op :: rest)
    | _ => some (a, ts)

/-- Additive chain. -/
def cParseArith : Nat → List CTok → Option (CExpr × List CTok)
  | 0, _ => none
  | fuel + 1, ts => do
    let (a, ts) ← cParseTerm fuel ts
    cParseArithTail fuel a ts

/-- Tail of additive chains. -/
def cParseArithTail : Nat → CExpr → List CTok → Option (CExpr × List CTok)
  | 0, _, _ => none
  | fuel + 1, a, ts =>
    match ts with
    | CTok.cop "+" :: rest => do
      let (b, ts2) ← cParseTerm fuel rest
      cParseArithTail fuel (CExpr.cbinE "+" a b) ts2
    | CTok.cop "-" :: rest => do
      let (b, ts2) ← cParseTerm fuel rest
      cParseArithTail fuel (CExpr.cbinE "-" a b) ts2
    | _ => some (a, ts)

/-- Multiplicative chain. -/
def cParseTerm : Nat → List CTok → Option (CExpr × List CTok)
  | 0, _ => none
  | fuel + 1, ts => do
    let (a, ts) ← cParseFact fuel ts
    cParseTermTail fuel a ts

/-- Tail of multiplicative chains. -/
def cParseTermTail : Nat → CExpr → List CTok → Option (CExpr × List CTok)
  | 0, _, _ => none
  | fuel + 1, a, ts =>
    match ts with
    | CTok.cop "*" :: rest => do
      let (b, ts2) ← cParseFact fuel rest
      cParseTermTail fuel (CExpr.cbinE "*" a b) ts2
    | CTok.cop "%" :: rest => do
      let (b, ts2) ← cParseFact fuel rest
      cParseTermTail fuel (CExpr.cbinE "%" a b) ts2
    | _ => some (a, ts)

/-- Unary sign / atom. -/
def cParseFact : Nat → List CTok → Option (CExpr × List CTok)
  | 0, _ => none
  | fuel + 1, ts =>
    match ts with
    | CTok.cop "-" :: rest => do
      let (a, ts2) ← cParseFact fuel rest
      some (CExpr.cnegE a, ts2)
    | CTok.cop "+" :: rest => do
      let (a, ts2) ← cParseFact fuel rest
      some (CExpr.cposE a, ts2)
    | CTok.cnum n :: rest => some (CExpr.cnumE n, rest)
    | CTok.cid s :: rest =>
      if s = "or" || s = "and" || s = "not" then none else some (CExpr.cidE s, rest)
    | CTok.clp :: rest => do
      let (a, ts2) ← cParseOr fuel rest
      match ts2 with
      | CTok.crp :: ts3 => some (a, ts3)
      | _ => none
    | _ => none

end

/-- `evaluate_condition` (`pyx.py`, lines 180-184): evaluate the expression
with a `SymbolicContext` in which every unbound identifier resolves to its
own name (a non-empty, hence truthy, string); any exception — or any
construct outside the modelled arithmetic/comparison/boolean fragment —
yields `False`.  No theorem below depends on this function's value. -/
def evaluateCondition (expr : String) : Bool :=
  match cTokenize expr.data with
  | none => false
  | some ts =>
    match cParseOr (5 * ts.length + 10) ts with
    | some (e, []) =>
      match cEval e with
      | some v => cTruthy v
      | none => false
    | _ => false

/-- A parsed macro parameter (`pyx.py`, lines 294-306): name, optional
default text, variadic flag. -/
structure Param where
  name : String
  default : Option String
  isVariadic : Bool
deriving Repr, DecidableEq

/-- `class Definition` (`pyx.py`, lines 260-306).  `isMacroKw` is the
source's `is_macro` (true for `!macro` and `!method`, false for
`!define`); `isDeleted` is the dynamically attached `is_deleted` tombstone
flag (`pyx.py`, line 437). -/
structure Definition where
  name : String
  isMacroKw : Bool
  isDebug : Bool
  bodyLines : List SourceLine
  params : List Param
  hasVariadic : Bool
  variadicName : Option String
  placeholder : Option String
  placeholderIsVariadic : Bool
  placeholderVars : Option (List String)
  isDeleted : Bool
deriving Repr, DecidableEq

/-- Pop trailing blank body lines (`pyx.py`, lines 266-267). -/
def dropTrailingBlanks (l : List SourceLine) : List SourceLine :=
  (l.reverse.dropWhile (fun sl => pyStrip sl.content = "")).reverse

/-- Python `name_part.split('.', 1)` when a dot is present. -/
def splitDot1 (s : String) : Option (String × String) :=
  if s.data.contains '.' then
    some (String.mk (s.data.takeWhile (· ≠ '.')),
      String.mk ((s.data.dropWhile (· ≠ '.')).tail))
  else none

/-- `Definition.__init__` (`pyx.py`, lines 261-306): dedent and trim the
body, parse the optional method placeholder out of the name, and parse the
parameter list with the bracket-aware splitter. -/
def mkDefinition (namePart argsStr : String) (bodySrc : List SourceLine)
    (isMacroKw isDebug : Bool) : Definition :=
  let bodyLines := dropTrailingBlanks (dedentBlock bodySrc)
  let nph : String × Option String × Bool × Option (List String) :=
    match splitDot1 namePart with
    | some (phRaw, rest) =>
      let ph := pyStrip phRaw
      let nm := pyStrip rest
      if startsWithS "*" ph then (nm, some (String.mk ph.data.tail), true, none)
      else if startsWithS "(" ph && endsWithC ')' ph then
        let innerL := ph.data.tail.dropLast
        let vars := ((splitOnCharL ',' innerL).map (fun v => String.mk (stripL v))).filter (· ≠ "")
        (nm, some ph, false, some vars)
      else (nm, some ph, false, none)
    | none => (namePart, none, false, none)
  let params : List Param :=
    if isMacroKw && pyStrip argsStr ≠ "" then
      (smartSplitArgs argsStr).map (fun rawArg0 =>
        let rawArg := pyStrip rawArg0
        if startsWithS "*" rawArg then
          ⟨pyStrip (String.mk rawArg.data.tail), none, true⟩
        else if rawArg.data.contains '=' then
          ⟨pyStrip (String.mk (rawArg.data.takeWhile (· ≠ '='))),
            some (pyStrip (String.mk ((rawArg.data.dropWhile (· ≠ '=')).tail))), false⟩
        else ⟨rawArg, none, false⟩)
    else []
  { name := nph.1
    isMacroKw := isMacroKw
    isDebug := isDebug
    bodyLines := bodyLines
    params := params
    hasVariadic := params.any (·.isVariadic)
    variadicName := ((params.filter (·.isVariadic)).getLast?).map (·.name)
    placeholder := nph.2.1
    placeholderIsVariadic := nph.2.2.1
    placeholderVars := nph.2.2.2
    isDeleted := false }

/-- Characters of the declaration-name class `[*a-zA-Z0-9_.,()]`. -/
def macroNameChar (c : Char) : Bool :=
  c = '*' || (c ≥ 'a' && c ≤ 'z') || (c ≥ 'A' && c ≤ 'Z') || digitChar c ||
    c = '_' || c = '.' || c = ',' || c = '(' || c = ')'

/-- Characters of the `!define` name class `[a-zA-Z0-9_.]`. -/
def defineNameChar (c : Char) : Bool :=
  (c ≥ 'a' && c ≤ 'z') || (c ≥ 'A' && c ≤ 'Z') || digitChar c || c = '_' || c = '.'

/-- Consume the optional `(\$debug\s+)?` group: `$debug` followed by at
least one whitespace character; otherwise the group matches empty. -/
def debugPreSplit (l : List Char) : Bool × List Char :=
  if List.isPrefixOf "$debug".data l then
    let r := l.drop 6
    if (r.head?.map pySpace).getD false then (true, r.dropWhile pySpace)
    else (false, l)
  else (false, l)

/-- The lazy `(.*?)\)\s*:\s*(.*)$` continuation of the declaration
pattern: scan for the first `)` that is followed (modulo whitespace) by a
colon; earlier `)` characters become part of the argument text. -/
def argScan : List Char → List Char → Option (List Char × List Char)
  | [], _ => none
  | c :: rest, accRev =>
    if c = ')' then
      match rest.dropWhile pySpace with
      | ':' :: r2 => some (accRev.reverse, r2.dropWhile pySpace)
      | _ => argScan rest (c :: accRev)
    else argScan rest (c :: accRev)

/-- The greedy name group `([*a-zA-Z0-9_.,()]+)\s*\(` of the declaration
pattern: try name lengths descending, requiring an opening parenthesis
(modulo whitespace) and a successful `argScan` continuation. -/
def macroNameSearch (isDbg : Bool) (r3 : List Char) : Nat → Option (Bool × String × String × String)
  | 0 => none
  | l + 1 =>
    let nm := r3.take (l + 1)
    let afterWs := (r3.drop (l + 1)).dropWhile pySpace
    match afterWs with
    | '(' :: inside =>
      match argScan inside [] with
      | some (args, rest) => some (isDbg, String.mk nm, String.mk args, String.mk rest)
      | none => macroNameSearch isDbg r3 l
    | _ => macroNameSearch isDbg r3 l

/-- `re.match(r'^(\$debug\s+)?!(macro|method)\s+([*a-zA-Z0-9_.,()]+)\s*\((.*?)\)\s*:\s*(.*)$', sline)`
(`pyx.py`, line 389): returns (is-debug, name part, argument text, inline
body).  `!macro` and `!method` lead to identical downstream treatment. -/
def matchMacroDecl (sline : String) : Option (Bool × String × String × String) :=
  let p := debugPreSplit sline.data
  match p.2 with
  | '!' :: r =>
    let afterKw : Option (List Char) :=
      if List.isPrefixOf "macro".data r then some (r.drop 5)
      else if List.isPrefixOf "method".data r then some (r.drop 6)
      else none
    match afterKw with
    | none => none
    | some r2 =>
      if (r2.head?.map pySpace).getD false then
        let r3 := r2.dropWhile pySpace
        macroNameSearch p.1 r3 (r3.takeWhile macroNameChar).length
      else none
  | _ => none

/-- The greedy name group `([a-zA-Z0-9_.]+)\s*:\s*` of the `!define`
pattern: try name lengths descending, requiring a colon modulo whitespace. -/
def defineNameSearch (isDbg : Bool) (r3 : List Char) : Nat → Option (Bool × String × String)
  | 0 => none
  | l + 1 =>
    let nm := r3.take (l + 1)
    match (r3.drop (l + 1)).dropWhile pySpace with
    | ':' :: r2 => some (isDbg, String.mk nm, String.mk (r2.dropWhile pySpace))
    | _ => defineNameSearch isDbg r3 l

/-- `re.match(r'^(\$debug\s+)?!define\s+([a-zA-Z0-9_.]+)\s*:\s*(.*)$', sline)`
(`pyx.py`, line 390): returns (is-debug, name, inline body). -/
def matchDefineDecl (sline : String) : Option (Bool × String × String) :=
  let p := debugPreSplit sline.data
  match p.2 with
  | '!' :: r =>
    if List.isPrefixOf "define".data r then
      let r2 := r.drop 6
      if (r2.head?.map pySpace).getD false then
        let r3 := r2.dropWhile pySpace
        defineNameSearch p.1 r3 (r3.takeWhile defineNameChar).length
      else none
    else none
  | _ => none

/-- The two registration slots kept per definition name (`pyx.py`,
lines 417-420): `{'normal': ..., 'debug': ...}`. -/
structure DefEntry where
  normal : Option Definition
  debug : Option Definition
deriving Repr, DecidableEq

/-- The transpiler's definition table: an insertion-ordered association
list standing for the Python dict `active_definitions` / `definitions`. -/
abbrev ActiveDefs := List (String × DefEntry)

/-- Dict lookup. -/
def entryLookup (m : ActiveDefs) (k : String) : Option DefEntry :=
  (m.find? (fun kv => kv.1 = k)).map (·.2)

/-- Register one parsed definition into its slot (`pyx.py`,
lines 417-420): create the pair on first sight, then overwrite the
`normal` or `debug` slot. -/
def declRegister (m : ActiveDefs) (d : Definition) : ActiveDefs :=
  let upd := fun (e : DefEntry) =>
    if d.isDebug then { e with debug := some d } else { e with normal := some d }
  if m.any (fun kv => kv.1 = d.name) then
    m.map (fun kv => if kv.1 = d.name then (kv.1, upd kv.2) else kv)
  else m ++ [(d.name, upd ⟨none, none⟩)]

/-- Continuation test for a declaration's block body (`pyx.py`,
line 411): blank lines and lines starting with a space or tab belong to
the body. -/
def blankOrIndent (sl : SourceLine) : Bool :=
  pyStrip sl.content = "" || (sl.content.data.head?.map (fun c => c = ' ' || c = '\t')).getD false

/-- Main loop of `parse_namespace_content` (`pyx.py`, lines 384-424) over
the already-dedented lines. -/
def parseNSCGo : Nat → List SourceLine → ActiveDefs → ActiveDefs × List SourceLine
  | 0, lines, defs => (defs, lines)
  | _ + 1, [], defs => (defs, [])
  | fuel + 1, sl :: rest, defs =>
    let sline := pyStrip sl.content
    match matchMacroDecl sline with
    | some (isDbg, namePart, argsStr, inlineBody) =>
      let bodyRest : List SourceLine × List SourceLine :=
        if pyStrip inlineBody ≠ "" then
          ([⟨inlineBody ++ "\n", sl.filename, sl.lineno⟩], rest)
        else rest.span blankOrIndent
      let d := mkDefinition namePart argsStr bodyRest.1 true isDbg
      parseNSCGo fuel bodyRest.2 (declRegister defs d)
    | none =>
      match matchDefineDecl sline with
      | some (isDbg, namePart, inlineBody) =>
        let bodyRest : List SourceLine × List SourceLine :=
          if pyStrip inlineBody ≠ "" then
            ([⟨inlineBody ++ "\n", sl.filename, sl.lineno⟩], rest)
          else rest.span blankOrIndent
        let d := mkDefinition namePart "" bodyRest.1 false isDbg
        parseNSCGo fuel bodyRest.2 (declRegister defs d)
      | none =>
        let r := parseNSCGo fuel rest defs
        (r.1, sl :: r.2)

/-- `parse_namespace_content` (`pyx.py`, lines 379-424): dedent the line
block, then split it into parsed declarations and remaining raw lines. -/
def parseNamespaceContent (lines : List SourceLine) : ActiveDefs × List SourceLine :=
  let ded := dedentBlock lines
  parseNSCGo (ded.length + 1) ded []

/-- Namespace map update (`pyx.py`, lines 360-373): namespaces are
additive. -/
def nsAppend (nss : List (String × List SourceLine)) (nm : String)
    (ls : List SourceLine) : List (String × List SourceLine) :=
  if nss.any (fun kv => kv.1 = nm) then
    nss.map (fun kv => if kv.1 = nm then (kv.1, kv.2 ++ ls) else kv)
  else nss ++ [(nm, ls)]

/-- Namespace lookup. -/
def nsLookup (nss : List (String × List SourceLine)) (nm : String) : Option (List SourceLine) :=
  (nss.find? (fun kv => kv.1 = nm)).map (·.2)

/-- `extract_namespaces` (`pyx.py`, lines 349-377): strip
`$namespace ... $` blocks and `$name` one-liners out of the stream,
returning the namespace map and the main lines.  An unterminated block's
buffer is discarded, as in the source. -/
def extractGo : List SourceLine → Option String → List SourceLine →
    List (String × List SourceLine) → List (String × List SourceLine) × List SourceLine
  | [], _, _, nss => (nss, [])
  | sl :: rest, cur, buf, nss =>
    let sline := pyStrip sl.content
    if startsWithS "$namespace" sline then
      let parts := pySplitWs sline
      extractGo rest (some ((parts.get? 1).getD "unknown")) [] nss
    else if sline = "$" && cur.isSome then
      extractGo rest none [] (nsAppend nss (cur.getD "") buf)
    else if startsWithS "$name" sline then
      let parts := pySplitWs2 sline
      if parts.length ≥ 3 then
        extractGo rest cur buf (nsAppend nss (pyStrip ((parts.get? 1).getD ""))
          [⟨pyStrip ((parts.get? 2).getD "") ++ "\n", sl.filename, sl.lineno⟩])
      else extractGo rest cur buf nss
    else
      match cur with
      | some _ => extractGo rest cur (buf ++ [sl]) nss
      | none =>
        let r := extractGo rest none buf nss
        (r.1, sl :: r.2)

/-- `extract_namespaces` entry point. -/
def extractNamespaces (lines : List SourceLine) :
    List (String × List SourceLine) × List SourceLine :=
  extractGo lines none [] []

/-- `get_active_definition` (`pyx.py`, lines 426-439): exec mode prefers
the debug variant; non-exec mode prefers the normal variant and turns a
debug-only entry into a deleted tombstone definition. -/
def getActiveDefinition (isExec : Bool) (name : String) (entry : DefEntry) : Option Definition :=
  if isExec then
    match entry.debug with
    | some d => some d
    | none => entry.normal
  else
    match entry.normal with
    | some d => some d
    | none =>
      match entry.debug with
      | some dbg => some { mkDefinition name "" [] dbg.isMacroKw false with isDeleted := true }
      | none => none

/-- The `\s+(.+?):\s*(.*)$` continuation of the `!if` / `!elif` patterns
(`pyx.py`, lines 596, 617): greedy whitespace, lazy expression up to the
first reachable colon, then the inline remainder.  Returns the raw
captured expression and inline groups. -/
def matchIfAfter (r : List Char) : Option (String × String) :=
  let w := (r.takeWhile pySpace).length
  if w = 0 then none
  else
    let p := (r.takeWhile (· ≠ ':')).length
    if (r.drop p).head? ≠ some ':' then none
    else if p ≥ w + 1 then
      some (String.mk ((r.drop w).take (p - w)), String.mk ((r.drop (p + 1)).dropWhile pySpace))
    else if p = w && w ≥ 2 then
      some (String.mk [r.getD (p - 1) ' '], String.mk ((r.drop (p + 1)).dropWhile pySpace))
    else none

/-- `re.match(r'^!if\s+(.+?):\s*(.*)$', sline)`. -/
def matchIfLine (sline : String) : Option (String × String) :=
  if startsWithS "!if" sline then matchIfAfter (sline.data.drop 3) else none

/-- `re.match(r'^!elif\s+(.+?):\s*(.*)$', next_sline)`. -/
def matchElifLine (sline : String) : Option (String × String) :=
  if startsWithS "!elif" sline then matchIfAfter (sline.data.drop 5) else none

/-- `re.match(r'^!else:\s*(.*)$', next_sline)`. -/
def matchElseLine (sline : String) : Option String :=
  if startsWithS "!else:" sline then some (String.mk ((sline.data.drop 6).dropWhile pySpace))
  else none

/-- `extract_block` (`pyx.py`, lines 652-667): take lines while blank or
more indented than the base, returning the block and the remainder. -/
def extractBlock (lines : List SourceLine) (baseIndentLen : Nat) :
    List SourceLine × List SourceLine :=
  lines.span (fun sl => pyStrip sl.content = "" || getIndentLength sl.content > baseIndentLen)

/-- The `!elif`/`!else` scan of `process_conditionals` (`pyx.py`,
lines 614-645).  Every branch's expression is rewritten (which can raise)
and its block consumed even when a branch has already been chosen; the
condition of a branch is only evaluated while no branch has been chosen. -/
def chainScan (repl : Repl) : Nat → Bool → List SourceLine → List SourceLine →
    Except String (List SourceLine × List SourceLine)
  | 0, _, blockAcc, lines => Except.ok (blockAcc, lines)
  | _ + 1, _, blockAcc, [] => Except.ok (blockAcc, [])
  | fuel + 1, chainDone, blockAcc, next :: rest =>
    let nsline := pyStrip next.content
    match matchElifLine nsline with
    | some (rawE, inlineRaw) => do
      let rawExpr := pyStrip rawE
      let inline := pyStrip inlineRaw
      let expr0 ← processMacroOps rawExpr repl
      let expr := safeReplace expr0 repl
      let br : List SourceLine × List SourceLine :=
        if inline ≠ "" then ([⟨inline ++ "\n", next.filename, next.lineno⟩], rest)
        else extractBlock rest (getIndentLength next.content)
      if !chainDone && evaluateCondition expr then chainScan repl fuel true br.1 br.2
      else chainScan repl fuel chainDone blockAcc br.2
    | none =>
      match matchElseLine nsline with
      | some inlineRaw =>
        let inline := pyStrip inlineRaw
        let br : List SourceLine × List SourceLine :=
          if inline ≠ "" then ([⟨inline ++ "\n", next.filename, next.lineno⟩], rest)
          else extractBlock rest (getIndentLength next.content)
        if !chainDone then Except.ok (br.1, br.2) else Except.ok (blockAcc, br.2)
      | none => Except.ok (blockAcc, next :: rest)

/-- Fuel measure for `process_conditionals`: total characters plus line
count; every recursive call strictly decreases it, so the fuel below never
runs out on the calls the program makes. -/
def linesSize (lines : List SourceLine) : Nat :=
  lines.foldl (fun a sl => a + sl.content.data.length + 1) 0 + 1

/-- `process_conditionals` (`pyx.py`, lines 590-650): expand `!if` /
`!elif` / `!else` chains inside a macro body against the current bindings,
recursively processing the chosen block. -/
def processConditionalsF (repl : Repl) : Nat → List SourceLine → Except String (List SourceLine)
  | 0, _ => Except.error "process_conditionals fuel exhausted"
  | _ + 1, [] => Except.ok []
  | fuel + 1, sl :: rest =>
    let sline := pyStrip sl.content
    match matchIfLine sline with
    | some (rawE, inlineRaw) => do
      let rawExpr := pyStrip rawE
      let inline := pyStrip inlineRaw
      let expr0 ← processMacroOps rawExpr repl
      let expr := safeReplace expr0 repl
      let condMet := evaluateCondition expr
      let br : List SourceLine × List SourceLine :=
        if inline ≠ "" then ([⟨inline ++ "\n", sl.filename, sl.lineno⟩], rest)
        else extractBlock rest (getIndentLength sl.content)
      let chosen ← chainScan repl (br.2.length + 1) condMet (if condMet then br.1 else []) br.2
      let sub ← processConditionalsF repl fuel chosen.1
      let tail ← processConditionalsF repl fuel chosen.2
      Except.ok (sub ++ tail)
    | none => do
      let tail ← processConditionalsF repl fuel rest
      Except.ok (sl :: tail)

/-- `process_conditionals` entry point. -/
def processConditionals (lines : List SourceLine) (repl : Repl) : Except String (List SourceLine) :=
  processConditionalsF repl (linesSize lines) lines

/-- Scan for the word-bounded occurrences of a `!define` name
(`re.finditer(r'\b<name>\b', line)`), non-overlapping, left to right. -/
def findWordGo (k : List Char) (kh kl : Bool) : Nat → Option Char → Nat → List Char → List Nat
  | 0, _, _, _ => []
  | _ + 1, _, _, [] => []
  | fuel + 1, prev, i, c :: rest =>
    if List.isPrefixOf k (c :: rest) && (wordOpt prev ≠ kh) &&
        (kl ≠ wordOpt (((c :: rest).drop k.length).head?)) then
      i :: findWordGo k kh kl fuel (some (k.getLastD ' ')) (i + k.length) ((c :: rest).drop k.length)
    else findWordGo k kh kl fuel (some c) (i + 1) rest

/-- All word-bounded match positions of `k` in `text`. -/
def findWordMatches (text k : List Char) : List Nat :=
  match k with
  | [] => []
  | kh :: _ => findWordGo k (wordChar kh) (wordChar (k.getLastD ' ')) (text.length + 1) none 0 text

/-- First word-bounded, index-safe occurrence of a define name in a line
(`pyx.py`, lines 448-452). -/
def firstSafeWordMatch (content name : String) : Option Nat :=
  (findWordMatches content.data name.data).find? (fun i => isIndexSafe content i)

/-- Try the macro-call pattern `(?<!\.)\b<name>\s*\(` at one position;
returns the matched length (through the opening parenthesis). -/
def callMatchAt (name : List Char) (nh : Bool) (prev : Option Char) (here : List Char) : Option Nat :=
  if (prev ≠ some '.') && (wordOpt prev ≠ nh) && List.isPrefixOf name here then
    let after := here.drop name.length
    let wsN := (after.takeWhile pySpace).length
    match (after.drop wsN).head? with
    | some '(' => some (name.length + wsN + 1)
    | _ => none
  else none

/-- `re.finditer` scan for macro calls; yields (start, index after `(`). -/
def findCallGo (name : List Char) (nh : Bool) : Nat → Option Char → Nat → List Char → List (Nat × Nat)
  | 0, _, _, _ => []
  | _ + 1, _, _, [] => []
  | fuel + 1, prev, i, c :: rest =>
    match callMatchAt name nh prev (c :: rest) with
    | some mlen =>
      (i, i + mlen) :: findCallGo name nh fuel (some ((c :: rest).getD (mlen - 1) ' '))
        (i + mlen) ((c :: rest).drop mlen)
    | none => findCallGo name nh fuel (some c) (i + 1) rest

/-- All matches of `(?<!\.)\b<name>\s*\(` in a line (`pyx.py`, line 486). -/
def findCallMatches (text name : List Char) : List (Nat × Nat) :=
  match name with
  | [] => []
  | nh0 :: _ => findCallGo name (wordChar nh0) (text.length + 1) none 0 text

/-- The balanced-parenthesis scan of `process_line_expansion` (`pyx.py`,
lines 463-474 and 491-502): from the character after the opening
parenthesis, track depth and quoting; returns the index of the closing
parenthesis. -/
def parenScanGo : Nat → Nat → List Char → Int → Bool → Option Char → Bool → Option Nat
  | 0, _, _, _, _, _, _ => none
  | _ + 1, _, [], _, _, _, _ => none
  | fuel + 1, k, ch :: rest, depth, inQuote, quoteChar, escape =>
    if escape then parenScanGo fuel (k + 1) rest depth inQuote quoteChar false
    else if ch = '\\' then parenScanGo fuel (k + 1) rest depth inQuote quoteChar true
    else
      let s3 : Int × Bool × Option Char :=
        if inQuote then (depth, !(some ch = quoteChar), quoteChar)
        else if ch = '"' || ch = '\'' then (depth, true, some ch)
        else if ch = '(' then (depth + 1, false, quoteChar)
        else if ch = ')' then (depth - 1, false, quoteChar)
        else (depth, false, quoteChar)
      if s3.1 = 0 then some k
      else parenScanGo fuel (k + 1) rest s3.1 s3.2.1 s3.2.2 false

/-- Find the closing parenthesis for a call whose argument text begins at
`startIdx`; `none` is the source's `end_idx == -1`. -/
def parenScanEnd (text : List Char) (startIdx : Nat) : Option Nat :=
  parenScanGo (text.length + 1) startIdx (text.drop startIdx) 1 false none false

/-- Match `\.` + name + `\s*\(` (tail of the method pattern, `pyx.py`,
line 457); returns the consumed length. -/
def dotNameParen (name l : List Char) : Option Nat :=
  match l with
  | '.' :: r =>
    if List.isPrefixOf name r then
      let after := r.drop name.length
      let wsN := (after.takeWhile pySpace).length
      match (after.drop wsN).head? with
      | some '(' => some (1 + name.length + wsN + 1)
      | _ => none
    else none
  | _ => none

/-- Remainders after 0, 1, 2, ... groups of the greedy `(?:\[[^\]]*\])*`
receiver suffix. -/
def bracketStops : Nat → List Char → List (List Char)
  | 0, l => [l]
  | fuel + 1, l =>
    l :: (match l with
      | '[' :: r =>
        (match r.dropWhile (· ≠ ']') with
         | ']' :: r2 => bracketStops fuel r2
         | _ => [])
      | _ => [])

/-- Loop over bracket-group counts (greedy: most groups first). -/
def methodBracketLoop (name here : List Char) : List (List Char) → Option (List Char × Nat)
  | [] => none
  | r :: more =>
    match dotNameParen name r with
    | some n => some (here.take (here.length - r.length), here.length - r.length + n)
    | none => methodBracketLoop name here more

/-- Loop over receiver identifier lengths (greedy: longest first). -/
def methodIdentLoop (name here : List Char) : Nat → Option (List Char × Nat)
  | 0 => none
  | l + 1 =>
    let after := here.drop (l + 1)
    match methodBracketLoop name here ((bracketStops (after.length + 1) after).reverse) with
    | some x => some x
    | none => methodIdentLoop name here l

/-- Try the method-call pattern
`((?:\([^)]*\)|[a-zA-Z0-9_]+(?:\[[^\]]*\])*))\.<name>\s*\(` at one
position (`pyx.py`, lines 456-457): a parenthesised receiver is tried
first, then an identifier with optional bracket suffixes.  Returns the
receiver text and the matched length (through the opening parenthesis). -/
def methodTryAt (name here : List Char) : Option (List Char × Nat) :=
  let alt1 : Option (List Char × Nat) :=
    match here with
    | '(' :: r =>
      let inner := r.takeWhile (· ≠ ')')
      (match r.dropWhile (· ≠ ')') with
       | ')' :: r2 =>
         let recv := '(' :: (inner ++ [')'])
         (match dotNameParen name r2 with
          | some n => some (recv, recv.length + n)
          | none => none)
       | _ => none)
    | _ => none
  match alt1 with
  | some x => some x
  | none =>
    let m := (here.takeWhile wordChar).length
    if m = 0 then none else methodIdentLoop name here m

/-- `re.finditer` scan for method calls; yields (start, receiver text,
index after `(`). -/
def findMethodGo (name : List Char) : Nat → Nat → List Char → List (Nat × List Char × Nat)
  | 0, _, _ => []
  | _ + 1, _, [] => []
  | fuel + 1, i, c :: rest =>
    match methodTryAt name (c :: rest) with
    | some (recv, mlen) =>
      (i, recv, i + mlen) :: findMethodGo name fuel (i + mlen) ((c :: rest).drop mlen)
    | none => findMethodGo name fuel (i + 1) rest

/-- All matches of the method-call pattern in a line. -/
def findMethodMatches (text name : List Char) : List (Nat × List Char × Nat) :=
  findMethodGo name (text.length + 1) 0 text

/-- The parameter-binding loop of `expand_body` (`pyx.py`, lines 541-557):
positional arguments bind left to right; a variadic parameter absorbs all
remaining arguments and stops the loop; exhausted parameters take their
default, or the literal token `None`. -/
def bindParamsGo : Repl → List Param → List String → Repl
  | repl, [], _ => repl
  | repl, p :: ps, args =>
    if p.isVariadic then replUpdate repl p.name (PyVal.vlist args)
    else
      match args with
      | a :: rest => bindParamsGo (replUpdate repl p.name (PyVal.scalar a)) ps rest
      | [] => bindParamsGo (replUpdate repl p.name (PyVal.scalar (p.default.getD "None"))) ps []

/-- The receiver-placeholder binding of `expand_body` (`pyx.py`,
lines 525-539), with Python truthiness for `placeholder` (non-empty
string) and `placeholder_vars` (non-empty list). -/
def bindPlaceholder (d : Definition) (callerObj : Option String) (repl : Repl) : Repl :=
  match callerObj with
  | none => repl
  | some co =>
    let phS := d.placeholder.getD ""
    if d.placeholderIsVariadic && phS ≠ "" then
      let v := pyStrip co
      let v2 := if startsWithS "(" v && endsWithC ')' v then String.mk (v.data.tail.dropLast) else v
      replUpdate repl phS (PyVal.vlist (smartSplitArgs v2))
    else if (d.placeholderVars.getD []) ≠ [] then
      let v := pyStrip co
      if startsWithS "(" v && endsWithC ')' v then
        let innerVals := smartSplitArgs (String.mk (v.data.tail.dropLast))
        ((d.placeholderVars.getD []).zip innerVals).foldl
          (fun r p => replUpdate r p.1 (PyVal.scalar p.2)) repl
      else repl
    else if phS ≠ "" then replUpdate repl phS (PyVal.scalar co)
    else repl

/-- The per-line body rewrite of `expand_body` (`pyx.py`, lines 562-567):
macro operators first, then identifier substitution; the first raised
error aborts the whole expansion. -/
def rewriteBodyLines (repl : Repl) : List SourceLine → Except String (List SourceLine)
  | [] => Except.ok []
  | sl :: rest => do
    let t1 ← processMacroOps sl.content repl
    let tail ← rewriteBodyLines repl rest
    Except.ok (⟨safeReplace t1 repl, sl.filename, sl.lineno⟩ :: tail)

/-- The emission decision at the end of `expand_body` (`pyx.py`,
lines 569-588): a partial-line call whose rewritten body keeps exactly one
non-blank line is substituted in place on the caller's line (caller
coordinates); a partial-line call whose body is all blank erases the call
text (caller coordinates, a fully blanked line is dropped); otherwise the
whole line is replaced by the dedented body re-indented with the caller's
leading whitespace, each emitted line keeping its body line's
coordinates. -/
def assembleExpansion (originalSl : SourceLine) (matchStr : String)
    (finalLines : List SourceLine) : List SourceLine :=
  let validLines := finalLines.filter (fun l => pyStrip l.content ≠ "")
  let isWholeLine := pyStrip originalSl.content = matchStr
  if !isWholeLine && validLines.length = 1 then
    let bodyTxt := pyStrip ((validLines.getD 0 ⟨"", "", 0⟩).content)
    [⟨replaceAll originalSl.content matchStr bodyTxt,
      originalSl.filename, originalSl.lineno⟩]
  else if !isWholeLine && validLines.length = 0 then
    let newContent := replaceAll originalSl.content matchStr ""
    if pyStrip newContent = "" then []
    else [⟨newContent, originalSl.filename, originalSl.lineno⟩]
  else if finalLines.isEmpty then []
  else
    (dedentBlock finalLines).map (fun bodySl =>
      ⟨leadingWs originalSl.content ++ rstripNl bodySl.content ++ "\n",
        bodySl.filename, bodySl.lineno⟩)

/-- `expand_body` (`pyx.py`, lines 515-588): build the bindings, process
conditionals, rewrite macro operators and substitute identifiers in the
body, then emit: inline (partial-line) substitution when the call spans
part of the line and the body reduces to one non-empty line; erasure when
it reduces to none; otherwise whole-line replacement by the dedented body
re-indented with the caller's leading whitespace. -/
def expandBody (d : Definition) (callArgs : List String) (originalSl : SourceLine)
    (matchStr : String) (callerObj : Option String) : Except String (List SourceLine) :=
  if d.isDeleted then
    let newContent := replaceAll originalSl.content matchStr ""
    if pyStrip newContent = "" then Except.ok []
    else Except.ok [⟨newContent, originalSl.filename, originalSl.lineno⟩]
  else do
    let repl := bindParamsGo (bindPlaceholder d callerObj []) d.params callArgs
    let rawBody := d.bodyLines.map (fun l => (⟨l.content, l.filename, l.lineno⟩ : SourceLine))
    let processed ← processConditionals rawBody repl
    let finalLines ← rewriteBodyLines repl processed
    Except.ok (assembleExpansion originalSl matchStr finalLines)

/-- Iterate the method-call matches of one definition over a line
(`pyx.py`, lines 458-484): skip unsafe positions and unclosed calls; a
tombstoned definition erases the call text. -/
def methodMatchLoop (d : Definition) (sl : SourceLine) :
    List (Nat × List Char × Nat) → Option (Except String (List SourceLine))
  | [] => none
  | (start, recv, argStart) :: more =>
    let lc := sl.content
    if !isIndexSafe lc start then methodMatchLoop d sl more
    else
      match parenScanEnd lc.data argStart with
      | none => methodMatchLoop d sl more
      | some endIdx =>
        let fullMatch := String.mk ((lc.data.drop start).take (endIdx + 1 - start))
        if d.isDeleted then
          let newContent := replaceAll lc fullMatch ""
          if pyStrip newContent = "" then some (Except.ok [])
          else some (Except.ok [⟨newContent, sl.filename, sl.lineno⟩])
        else
          let argsStr := String.mk ((lc.data.drop argStart).take (endIdx - argStart))
          let callArgs := (smartSplitArgs argsStr).map tryEvalMath
          some (expandBody d callArgs sl fullMatch (some (String.mk recv)))

/-- Iterate the plain macro-call matches of one definition over a line
(`pyx.py`, lines 486-512). -/
def plainMatchLoop (d : Definition) (sl : SourceLine) :
    List (Nat × Nat) → Option (Except String (List SourceLine))
  | [] => none
  | (start, argStart) :: more =>
    let lc := sl.content
    if !isIndexSafe lc start then plainMatchLoop d sl more
    else
      match parenScanEnd lc.data argStart with
      | none => plainMatchLoop d sl more
      | some endIdx =>
        let fullMatch := String.mk ((lc.data.drop start).take (endIdx + 1 - start))
        if d.isDeleted then
          let newContent := replaceAll lc fullMatch ""
          if pyStrip newContent = "" then some (Except.ok [])
          else some (Except.ok [⟨newContent, sl.filename, sl.lineno⟩])
        else
          let argsStr := String.mk ((lc.data.drop argStart).take (endIdx - argStart))
          let callArgs := (smartSplitArgs argsStr).map tryEvalMath
          some (expandBody d callArgs sl fullMatch none)

/-- Try one definition table item against a line (the body of the
`for name in self.active_definitions.keys()` loop of
`process_line_expansion`, `pyx.py`, lines 443-512): a `!define` matches by
word-bounded name; a definition with a placeholder matches method-call
syntax; otherwise plain call syntax.  `none` means this item does not
match and the loop moves to the next name. -/
def tryExpandItem (isExec : Bool) (item : String × DefEntry) (sl : SourceLine) :
    Option (Except String (List SourceLine)) :=
  match getActiveDefinition isExec item.1 item.2 with
  | none => none
  | some d =>
    if !d.isMacroKw then
      match firstSafeWordMatch sl.content item.1 with
      | some _ => some (expandBody d [] sl item.1 none)
      | none => none
    else if (d.placeholder.getD "") ≠ "" || (d.placeholderVars.getD []) ≠ [] ||
        d.placeholderIsVariadic then
      methodMatchLoop d sl (findMethodMatches sl.content.data item.1.data)
    else
      plainMatchLoop d sl (findCallMatches sl.content.data item.1.data)

/-- `process_line_expansion` (`pyx.py`, lines 441-513): query the active
definitions in registration order; the first whose pattern matches the
line produces the replacement lines (`true`), otherwise the line is left
alone (`false`). -/
def processLineExpansion (isExec : Bool) (defs : ActiveDefs) (sl : SourceLine) :
    Except String (Bool × List SourceLine) :=
  match defs with
  | [] => Except.ok (false, [sl])
  | item :: rest =>
    match tryExpandItem isExec item sl with
    | some (Except.error e) => Except.error e
    | some (Except.ok ls) => Except.ok (true, ls)
    | none => processLineExpansion isExec rest sl

/-- `MAX_EXPANSION_DEPTH` (`pyx.py`, line 18). -/
def MAX_EXPANSION_DEPTH : Nat := 2000

/-- Per-slot overwrite of one definition pair by another (`pyx.py`,
lines 675-676, 681-682, 704-705): each slot the incoming pair fills wins;
an empty incoming slot keeps the old occupant. -/
def overrideEntry (e old : DefEntry) : DefEntry :=
  { normal := match e.normal with | some d => some d | none => old.normal
    debug := match e.debug with | some d => some d | none => old.debug }

/-- Merge one parsed definition pair into the active table (`pyx.py`,
lines 673-676, 679-682, 702-705): create the pair on first sight, then
overwrite each slot that the incoming pair actually fills. -/
def mergeEntry (base : ActiveDefs) (nm : String) (e : DefEntry) : ActiveDefs :=
  if base.any (fun kv => kv.1 = nm) then
    base.map (fun kv => if kv.1 = nm then (kv.1, overrideEntry e kv.2) else kv)
  else base ++ [(nm, overrideEntry e ⟨none, none⟩)]

/-- Merge a parsed definition table into the active table, in insertion
order. -/
def mergeDefs (base items : ActiveDefs) : ActiveDefs :=
  items.foldl (fun b kv => mergeEntry b kv.1 kv.2) base

/-- Driver state of `PyxTranspiler.transpile` (`pyx.py`, lines 669-770):
the growable work list (the lines from index `i` onward), the definition
table, the namespace map, the execution mode, the modulus, the `$cases`
indent level, the expansion counter, and the emitted output. -/
structure TState where
  work : List SourceLine
  defs : ActiveDefs
  nss : List (String × List SourceLine)
  isExecMode : Bool
  modValue : Option String
  casesIndentLevel : Nat
  expansionCounter : Nat
  output : List SourceLine
deriving Repr, DecidableEq

/-- The `$using` loop body (`pyx.py`, lines 698-706): parse each target
namespace, merge its definitions, and collect its raw lines. -/
def usingSpliceGo (nss : List (String × List SourceLine)) :
    List String → ActiveDefs → List SourceLine → ActiveDefs × List SourceLine
  | [], defs, raws => (defs, raws)
  | t :: ts, defs, raws =>
    match nsLookup nss t with
    | some content =>
      let pr := parseNamespaceContent content
      usingSpliceGo nss ts (mergeDefs defs pr.1) (raws ++ pr.2)
    | none => usingSpliceGo nss ts defs raws

/-- `re.match(r'^(\s*)\?(.*)$', sl.content)` (`pyx.py`, line 731): leading
whitespace, a `?`, and the rest of the line before its trailing newline. -/
def debugLineSplit (content : String) : Option (String × String) :=
  let ws := content.data.takeWhile pySpace
  match content.data.drop ws.length with
  | '?' :: restC =>
    let g2 := if restC.getLast? = some '\n' then restC.dropLast else restC
    if g2.contains '\n' then none else some (String.mk ws, String.mk g2)
  | _ => none

/-- The `$cases` handling and final emission of the driver loop
(`pyx.py`, lines 742-768): `$cases 1` is dropped, other `$cases` emit a
repetition header and deepen the indent; ordinary lines get the mod
rewrite and the current `$cases` indentation. -/
def emitStage (st : TState) (sl : SourceLine) (rest : List SourceLine) : TState :=
  let sline := pyStrip sl.content
  if startsWithS "$cases" sline then
    let parts := pySplitWs1 sline
    if parts.length > 1 then
      let countExpr := pyStrip ((parts.get? 1).getD "")
      if countExpr = "1" then { st with work := rest }
      else
        let loopTxt := leadingWs sl.content ++
          String.join (List.replicate st.casesIndentLevel "    ") ++
          "for _ in range(" ++ countExpr ++ "):\n"
        { st with
          work := rest
          output := st.output ++ [⟨loopTxt, sl.filename, sl.lineno⟩]
          casesIndentLevel := st.casesIndentLevel + 1 }
    else { st with work := rest }
  else
    let slToAdd : SourceLine := ⟨processModOps sl.content st.modValue, sl.filename, sl.lineno⟩
    if st.casesIndentLevel > 0 && pyStrip slToAdd.content ≠ "" then
      { st with
        work := rest
        output := st.output ++ [⟨String.join (List.replicate st.casesIndentLevel "    ") ++
          slToAdd.content, slToAdd.filename, slToAdd.lineno⟩] }
    else { st with work := rest, output := st.output ++ [slToAdd] }

/-- One iteration of the driver loop of `transpile` (`pyx.py`,
lines 690-768).  `Sum.inr` is loop exit (`i` past the end); errors are the
raised `RuntimeError`s.  Note that the `$mod` branch, unlike `$using` and
every non-expansion decision below it, does not touch the expansion
counter. -/
def transpileStep (st : TState) : Except String (TState ⊕ List SourceLine) :=
  match st.work with
  | [] => Except.ok (Sum.inr st.output)
  | sl :: rest =>
    let sline := pyStrip sl.content
    if startsWithS "$using" sline then
      let parts := pySplitWs1 sline
      if parts.length > 1 then
        let targets := (splitOnChar ',' ((parts.get? 1).getD "")).map pyStrip
        let dr := usingSpliceGo st.nss targets st.defs []
        Except.ok (Sum.inl { st with work := dr.2 ++ rest, defs := dr.1, expansionCounter := 0 })
      else Except.ok (Sum.inl { st with work := rest, expansionCounter := 0 })
    else if startsWithS "$mod" sline then
      let parts := pySplitWs sline
      if parts.length > 1 then
        Except.ok (Sum.inl { st with
          work := rest
          modValue := some (pyStrip ((parts.get? 1).getD "")) })
      else Except.ok (Sum.inl { st with work := rest })
    else
      match processLineExpansion st.isExecMode st.defs sl with
      | Except.error e => Except.error e
      | Except.ok (true, newLines) =>
        if st.expansionCounter + 1 > MAX_EXPANSION_DEPTH then
          Except.error ("Infinite macro expansion detected at line " ++
            toString sl.lineno ++ ": " ++ sline)
        else
          Except.ok (Sum.inl { st with
            work := newLines ++ rest
            expansionCounter := st.expansionCounter + 1 })
      | Except.ok (false, _) =>
        let st1 := { st with expansionCounter := 0 }
        match debugLineSplit sl.content with
        | some g12 =>
          if !st1.isExecMode then Except.ok (Sum.inl { st1 with work := rest })
          else
            let newContent0 := g12.1 ++ g12.2
            let newContent := if endsWithC '\n' newContent0 then newContent0
              else newContent0 ++ "\n"
            Except.ok (Sum.inl (emitStage st1 ⟨newContent, sl.filename, sl.lineno⟩ rest))
        | none => Except.ok (Sum.inl (emitStage st1 sl rest))

/-- Run the driver loop with explicit fuel (`none` = fuel exhausted; the
Python loop can diverge, e.g. on a namespace that `$using`s itself). -/
def driverRun : Nat → TState → Option (Except String (List SourceLine))
  | 0, _ => none
  | fuel + 1, st =>
    match transpileStep st with
    | Except.error e => some (Except.error e)
    | Except.ok (Sum.inr out) => some (Except.ok out)
    | Except.ok (Sum.inl st') => driverRun fuel st'

/-- The setup phase of `transpile` (`pyx.py`, lines 669-683): extract
namespaces, parse the main stream's declarations, merge them into the
active table, then (when a `default` namespace exists) merge its
definitions — same name and mode overwriting — and splice its raw lines
before the first main line. -/
def transpileSetup (isExec : Bool) (lines : List SourceLine) : TState :=
  let exr := extractNamespaces lines
  let gp := parseNamespaceContent exr.2
  let defs1 := mergeDefs [] gp.1
  match nsLookup exr.1 "default" with
  | some content =>
    let dp := parseNamespaceContent content
    { work := dp.2 ++ gp.2
      defs := mergeDefs defs1 dp.1
      nss := exr.1
      isExecMode := isExec
      modValue := none
      casesIndentLevel := 0
      expansionCounter := 0
      output := [] }
  | none =>
    { work := gp.2
      defs := defs1
      nss := exr.1
      isExecMode := isExec
      modValue := none
      casesIndentLevel := 0
      expansionCounter := 0
      output := [] }

/-- `PyxTranspiler.transpile` (`pyx.py`, lines 669-770) on an
already-loaded line stream.  `$expand` resolution (`expand_files`) is file
I/O and out of scope; for a single-file input without `$expand` lines it
is the identity on the loaded lines, so this models `transpile` exactly
for such inputs. -/
def transpileLines (isExec : Bool) (lines : List SourceLine) (fuel : Nat) :
    Option (Except String (List SourceLine)) :=
  driverRun fuel (transpileSetup isExec lines)

/-- Worker for `splitLines`. -/
def splitLinesGo : List Char → List Char → List (List Char)
  | [], acc => if acc.isEmpty then [] else [acc.reverse]
  | c :: rest, acc =>
    if c = '\n' then (acc.reverse ++ ['\n']) :: splitLinesGo rest []
    else splitLinesGo rest (c :: acc)

/-- Python text-file line iteration (`load_file`, `pyx.py`,
lines 318-326): split after each newline, keeping the newline. -/
def splitLines (s : String) : List String := (splitLinesGo s.data []).map String.mk

/-- Build a line stream from a list of line contents (filename modelled as
`"main"`, line numbers 1-based as in `load_file`). -/
def mkLines (cs : List String) : List SourceLine :=
  (List.enumFrom 1 cs).map (fun p => ⟨p.2, "main", p.1⟩)

/-- Build the loaded line stream of a source text. -/
def mkMainLines (src : String) : List SourceLine := mkLines (splitLines src)

/-- The body-producing pipeline at the granularity of line contents: load
the given lines, transpile, and return the emitted line contents. -/
def bodyContents (isExec : Bool) (cs : List String) (fuel : Nat) :
    Option (Except String (List String)) :=
  (transpileLines isExec (mkLines cs) fuel).map (fun r =>
    r.map (fun out => out.map (·.content)))

/-- The body-producing pipeline on a source text: load, transpile, join
the emitted contents. -/
def transpileText (isExec : Bool) (src : String) (fuel : Nat) :
    Option (Except String String) :=
  (transpileLines isExec (mkMainLines src) fuel).map (fun r =>
    r.map (fun out => String.join (out.map (·.content))))

/-! ## Claim theorems -/

/-- Claim C1, counterexample: a whole-line expansion of a two-line macro
body emits replacement lines carrying the *definition body's* origin
coordinates (`lib`, 10 and 11), not the caller's (`main`, 5) — refuting
the claim that every replacement line carries the invocation site's
coordinates. -/
theorem c1_counterexample :
    expandBody (mkDefinition "M2" "" [⟨"a\n", "lib", 10⟩, ⟨"b\n", "lib", 11⟩] true false) []
        ⟨"M2()\n", "main", 5⟩ "M2()" none =
      Except.ok [⟨"a\n", "lib", 10⟩, ⟨"b\n", "lib", 11⟩] ∧
    (([⟨"a\n", "lib", 10⟩, ⟨"b\n", "lib", 11⟩] : List SourceLine).all fun l =>
      l.lineno == 5 && l.filename == "main") = false :=
  ⟨rfl, rfl⟩

/-- Claim C2, counterexample: transpiling `!macro SQ(x): x*x` with
`y = SQ(3+1)` yields the body line `y = 4*4`, not the claimed
`y = 3+1*3+1` — the constant folder evaluates the numeric argument before
substitution. -/
theorem c2_counterexample :
    transpileLines false [⟨"!macro SQ(x): x*x\n", "main", 1⟩, ⟨"y = SQ(3+1)\n", "main", 2⟩] 20 =
      some (Except.ok [⟨"y = 4*4\n", "main", 2⟩]) ∧
    (⟨"y = 4*4\n", "main", 2⟩ : SourceLine) ≠ ⟨"y = 3+1*3+1\n", "main", 2⟩ :=
  ⟨rfl, by decide⟩

/-- Claim C2, amended: the body line is `y = 4*4`, because the argument
`3+1` is purely numeric and the constant folder evaluates it to `4`
before substitution; the no-auto-parentheses raw substitution applies to
non-numeric arguments, as `y = SQ(a+1)` → `y = a+1*a+1` shows. -/
theorem c2_amended :
    transpileLines false [⟨"!macro SQ(x): x*x\n", "main", 1⟩, ⟨"y = SQ(3+1)\n", "main", 2⟩] 20 =
      some (Except.ok [⟨"y = 4*4\n", "main", 2⟩]) ∧
    tryEvalMath "3+1" = "4" ∧
    transpileLines false [⟨"!macro SQ(x): x*x\n", "main", 1⟩, ⟨"y = SQ(a+1)\n", "main", 2⟩] 20 =
      some (Except.ok [⟨"y = a+1*a+1\n", "main", 2⟩]) :=
  ⟨rfl, rfl, rfl⟩

/-- Claim C3, counterexample: with a macro `F` registered before a define
`D`, the line `F(D)` — which the define `D` matches word-boundedly — is
expanded by the macro `F` (giving `D+D`), not by the define (which would
give `F(9)`): there is no defines-first pass, only registration order. -/
theorem c3_counterexample :
    processLineExpansion false
        [("F", ⟨some (mkDefinition "F" "x" [⟨"x+x\n", "main", 1⟩] true false), none⟩),
         ("D", ⟨some (mkDefinition "D" "" [⟨"9\n", "main", 2⟩] false false), none⟩)]
        ⟨"F(D)\n", "main", 3⟩ =
      Except.ok (true, [⟨"D+D\n", "main", 1⟩]) ∧
    tryExpandItem false ("D", ⟨some (mkDefinition "D" "" [⟨"9\n", "main", 2⟩] false false), none⟩)
        ⟨"F(D)\n", "main", 3⟩ = some (Except.ok [⟨"F(9)\n", "main", 3⟩]) ∧
    (⟨"D+D\n", "main", 1⟩ : SourceLine) ≠ ⟨"F(9)\n", "main", 3⟩ :=
  ⟨rfl, rfl, by decide⟩

/-- Claim C4, counterexample: a `$mod` directive is a non-expansion
decision, yet one driver step on a `$mod 7` line leaves the expansion
counter at 5 instead of resetting it to zero. -/
theorem c4_counterexample :
    transpileStep
        { work := [⟨"$mod 7\n", "main", 3⟩]
          defs := []
          nss := []
          isExecMode := false
          modValue := none
          casesIndentLevel := 0
          expansionCounter := 5
          output := [] } =
      Except.ok (Sum.inl
        { work := []
          defs := []
          nss := []
          isExecMode := false
          modValue := some "7"
          casesIndentLevel := 0
          expansionCounter := 5
          output := [] }) ∧
    (5 : Nat) ≠ 0 :=
  ⟨rfl, by decide⟩

/-- Claim C5, counterexample: deleting the `$debug` prefix changes the
body.  The original program tombstones the debug-only macro `F` in
non-exec mode (its call is erased, body empty); with the prefix deleted,
`F` is a normal macro and the call expands to `print(1)`. -/
theorem c5_counterexample :
    transpileLines false [⟨"$debug !macro F(x): print(x)\n", "main", 1⟩, ⟨"F(1)\n", "main", 2⟩] 20 =
      some (Except.ok []) ∧
    transpileLines false [⟨"!macro F(x): print(x)\n", "main", 1⟩, ⟨"F(1)\n", "main", 2⟩] 20 =
      some (Except.ok [⟨"print(1)\n", "main", 1⟩]) ∧
    ([] : List SourceLine) ≠ [⟨"print(1)\n", "main", 1⟩] :=
  ⟨rfl, rfl, by decide⟩

/-- Claim C7, counterexample: the out-of-range failure for `xs![5]` is the
same message whether the offending call is on line 2 or on line 3 — the
transpile-time failure does not name the offending line (it names only
the variable, index and length). -/
theorem c7_counterexample :
    transpileLines false [⟨"!macro F(*xs): print(xs![5])\n", "main", 1⟩,
        ⟨"F(1,2,3)\n", "main", 2⟩] 25 =
      some (Except.error "Macro index out of range: xs![5] (len=3)") ∧
    transpileLines false [⟨"!macro F(*xs): print(xs![5])\n", "main", 1⟩, ⟨"pass\n", "main", 2⟩,
        ⟨"F(1,2,3)\n", "main", 3⟩] 25 =
      some (Except.error "Macro index out of range: xs![5] (len=3)") :=
  ⟨rfl, rfl⟩

/-- Claim C8, counterexample: the input `" a\nx$name n c\n"` contains no
line that (stripped) is a directive, declaration or `?` marker, yet the
pipeline is not idempotent: dedenting uncovers a `$name` directive
mid-line, which the first pass emits verbatim and the second pass
extracts. -/
theorem c8_counterexample :
    ((mkMainLines " a\nx$name n c\n").all fun sl =>
      !startsWithS "$" (pyStrip sl.content) && (matchMacroDecl (pyStrip sl.content)).isNone &&
      (matchDefineDecl (pyStrip sl.content)).isNone && (debugLineSplit sl.content).isNone) = true ∧
    transpileText false " a\nx$name n c\n" 20 = some (Except.ok "a\n$name n c\n") ∧
    transpileText false "a\n$name n c\n" 20 = some (Except.ok "a\n") ∧
    ("a\n$name n c\n" : String) ≠ "a\n" :=
  ⟨rfl, rfl, rfl, by decide⟩

/-- The emission stage never touches the expansion counter. -/
theorem emitStage_counter (st : TState) (sl : SourceLine) (rest : List SourceLine) :
    (emitStage st sl rest).expansionCounter = st.expansionCounter := by
  unfold emitStage
  dsimp only
  repeat' split
  all_goals rfl

/-- Claim C5, amended: in non-exec mode, a driver step on a `?`-marked
line that matches no active definition (and is not a `$using`/`$mod`
directive) simply drops the line and resets the expansion counter,
leaving definitions, namespaces, modulus, `$cases` level and output
untouched — so such lines contribute nothing to the body.  The
full-program equivalence of the original claim fails for `$debug`
(see the counterexample). -/
theorem c5_amended (sl : SourceLine) (rest : List SourceLine) (defs : ActiveDefs)
    (nss : List (String × List SourceLine)) (mv : Option String) (ci k : Nat)
    (out : List SourceLine)
    (hu : startsWithS "$using" (pyStrip sl.content) = false)
    (hm : startsWithS "$mod" (pyStrip sl.content) = false)
    (hd : (debugLineSplit sl.content).isSome = true)
    (hx : processLineExpansion false defs sl = Except.ok (false, [sl])) :
    transpileStep ⟨sl :: rest, defs, nss, false, mv, ci, k, out⟩ =
      Except.ok (Sum.inl ⟨rest, defs, nss, false, mv, ci, 0, out⟩) := by
  obtain ⟨g, hg⟩ := Option.isSome_iff_exists.mp hd
  unfold transpileStep
  simp only [hu, hm, hx, hg, Bool.false_eq_true, if_false]
  simp

/-- Claim C5, witness: a concrete `?`-line in non-exec mode is dropped
with the counter reset. -/
theorem c5_witness :
    transpileStep ⟨[⟨"?print(1)\n", "main", 4⟩], [], [], false, none, 0, 7, []⟩ =
      Except.ok (Sum.inl ⟨[], [], [], false, none, 0, 0, []⟩) :=
  c5_amended ⟨"?print(1)\n", "main", 4⟩ [] [] [] none 0 7 []
    (by decide) (by decide) (by decide) rfl

/-- Claim C4, amended: per driver step, a `$using` directive resets the
expansion counter to zero; a `$mod` directive leaves it unchanged (it is
the one non-expansion decision that does not reset); an expansion
increments it and raises `Infinite macro expansion detected at line ...`
naming the offending line exactly when the incremented counter exceeds
`MAX_EXPANSION_DEPTH` (2000); every other non-expansion decision
(debug-line drop, `$cases`, declaration-free emission) resets it to
zero. -/
theorem c4_amended (sl : SourceLine) (rest : List SourceLine) (defs : ActiveDefs)
    (nss : List (String × List SourceLine)) (ex : Bool) (mv : Option String)
    (ci k : Nat) (out : List SourceLine) :
    (startsWithS "$using" (pyStrip sl.content) = true →
      ∃ st', transpileStep ⟨sl :: rest, defs, nss, ex, mv, ci, k, out⟩ =
        Except.ok (Sum.inl st') ∧ st'.expansionCounter = 0) ∧
    (startsWithS "$using" (pyStrip sl.content) = false →
      startsWithS "$mod" (pyStrip sl.content) = true →
      ∃ st', transpileStep ⟨sl :: rest, defs, nss, ex, mv, ci, k, out⟩ =
        Except.ok (Sum.inl st') ∧ st'.expansionCounter = k) ∧
    (∀ ls, startsWithS "$using" (pyStrip sl.content) = false →
      startsWithS "$mod" (pyStrip sl.content) = false →
      processLineExpansion ex defs sl = Except.ok (true, ls) →
      (k + 1 > MAX_EXPANSION_DEPTH →
        transpileStep ⟨sl :: rest, defs, nss, ex, mv, ci, k, out⟩ =
          Except.error ("Infinite macro expansion detected at line " ++
            toString sl.lineno ++ ": " ++ pyStrip sl.content)) ∧
      (¬ k + 1 > MAX_EXPANSION_DEPTH →
        transpileStep ⟨sl :: rest, defs, nss, ex, mv, ci, k, out⟩ =
          Except.ok (Sum.inl ⟨ls ++ rest, defs, nss, ex, mv, ci, k + 1, out⟩))) ∧
    (∀ ls, startsWithS "$using" (pyStrip sl.content) = false →
      startsWithS "$mod" (pyStrip sl.content) = false →
      processLineExpansion ex defs sl = Except.ok (false, ls) →
      ∃ st', transpileStep ⟨sl :: rest, defs, nss, ex, mv, ci, k, out⟩ =
        Except.ok (Sum.inl st') ∧ st'.expansionCounter = 0) := by
  refine ⟨?_, ?_, ?_, ?_⟩
  · intro hu
    unfold transpileStep
    simp only [hu, if_true]
    split
    · exact ⟨_, rfl, rfl⟩
    · exact ⟨_, rfl, rfl⟩
  · intro hu hm
    unfold transpileStep
    simp only [hu, hm, Bool.false_eq_true, if_false, if_true]
    split
    · exact ⟨_, rfl, rfl⟩
    · exact ⟨_, rfl, rfl⟩
  · intro ls hu hm hx
    constructor
    · intro hk
      unfold transpileStep
      simp only [hu, hm, hx, Bool.false_eq_true, if_false]
      rw [if_pos hk]
    · intro hk
      unfold transpileStep
      simp only [hu, hm, hx, Bool.false_eq_true, if_false]
      rw [if_neg hk]
  · intro ls hu hm hx
    unfold transpileStep
    simp only [hu, hm, hx, Bool.false_eq_true, if_false]
    cases hdl : debugLineSplit sl.content with
    | none =>
      simp only [hdl]
      exact ⟨_, rfl, emitStage_counter _ _ _⟩
    | some g =>
      simp only [hdl]
      cases ex with
      | false =>
        simp only [Bool.not_false, if_true]
        exact ⟨_, rfl, rfl⟩
      | true =>
        simp only [Bool.not_true, Bool.false_eq_true, if_false]
        exact ⟨_, rfl, emitStage_counter _ _ _⟩

/-- Claim C4, witness: one step on `$mod 7` with counter 5 keeps the
counter at 5. -/
theorem c4_witness :
    ∃ st', transpileStep ⟨[⟨"$mod 7\n", "main", 1⟩], [], [], false, none, 0, 5, []⟩ =
      Except.ok (Sum.inl st') ∧ st'.expansionCounter = 5 :=
  (c4_amended ⟨"$mod 7\n", "main", 1⟩ [] [] [] false none 0 5 []).2.1 (by decide) (by decide)

/-- Claim C9: the bracket- and quote-aware argument splitter never returns
an argument that is empty after trimming, so consecutive and trailing
commas contribute no argument: `F(1,,2)` binds exactly like `F(1,2)` and
`F(1,)` exactly like `F(1)`. -/
theorem c9_split_drops_empty :
    (∀ s a, a ∈ smartSplitArgs s → a ≠ "") ∧
    smartSplitArgs "1,,2" = smartSplitArgs "1,2" ∧
    smartSplitArgs "1," = smartSplitArgs "1" ∧
    bindParamsGo [] (mkDefinition "F" "a,b" [] true false).params
        ((smartSplitArgs "1,,2").map tryEvalMath) =
      bindParamsGo [] (mkDefinition "F" "a,b" [] true false).params
        ((smartSplitArgs "1,2").map tryEvalMath) := by
  refine ⟨?_, rfl, rfl, rfl⟩
  intro s a ha
  unfold smartSplitArgs at ha
  obtain ⟨l, hl, rfl⟩ := List.mem_map.mp ha
  have hne := List.of_mem_filter hl
  intro h
  have : l = [] := congrArg String.data h
  simp [this] at hne

/-- Claim C9, witness: the first argument of `F(1,,2)` is non-empty. -/
theorem c9_witness : ("1" : String) ≠ "" :=
  c9_split_drops_empty.1 "1,,2" "1" (by decide)

/-- Claim C3, amended: the expansion driver queries active definitions in
a single pass in registration (insertion) order — there is no
defines-first pass: the first registered definition whose pattern matches
the line wins, whatever its kind. -/
theorem c3_amended (isExec : Bool) (pre : ActiveDefs) (item : String × DefEntry)
    (post : ActiveDefs) (sl : SourceLine) (r : Except String (List SourceLine))
    (hpre : ∀ it ∈ pre, tryExpandItem isExec it sl = none)
    (hit : tryExpandItem isExec item sl = some r) :
    processLineExpansion isExec (pre ++ item :: post) sl =
      r.map (fun ls => (true, ls)) := by
  induction pre with
  | nil =>
    simp only [List.nil_append]
    unfold processLineExpansion
    rw [hit]
    cases r <;> rfl
  | cons a as ih =>
    have ha := hpre a (by simp)
    simp only [List.cons_append]
    unfold processLineExpansion
    rw [ha]
    exact ih (fun it hmem => hpre it (by simp [hmem]))

/-- Claim C3, witness: with the macro `F` registered first, `F(D)` is
resolved by `F` in the single registration-order pass. -/
theorem c3_witness :
    processLineExpansion false
        [("F", ⟨some (mkDefinition "F" "x" [⟨"x+x\n", "main", 1⟩] true false), none⟩),
         ("D", ⟨some (mkDefinition "D" "" [⟨"9\n", "main", 2⟩] false false), none⟩)]
        ⟨"F(D)\n", "main", 3⟩ = Except.ok (true, [⟨"D+D\n", "main", 1⟩]) :=
  c3_amended false []
    ("F", ⟨some (mkDefinition "F" "x" [⟨"x+x\n", "main", 1⟩] true false), none⟩)
    [("D", ⟨some (mkDefinition "D" "" [⟨"9\n", "main", 2⟩] false false), none⟩)]
    ⟨"F(D)\n", "main", 3⟩ (Except.ok [⟨"D+D\n", "main", 1⟩])
    (by intro it hmem; cases hmem) rfl

/-- Claim C7, amended: `x![i]` on a list binding returns the i-th element
with Python-style negative indexing (equivalently, the element at index
`i mod len`) and raises `Macro index out of range` when out of range; on a
scalar binding it returns the value for index 0 and raises for any other
index; the failure propagates as a transpile-time failure whose message
names the variable, the index and the length — not the offending line. -/
theorem c7_amended :
    (∀ (nm : String) (xs : List String) (i : Int),
      ((0 ≤ i ∧ i < (xs.length : Int)) ∨ (-(xs.length : Int) ≤ i ∧ i < 0) →
        accessorIndex nm (PyVal.vlist xs) i =
          Except.ok (xs.getD (i % (xs.length : Int)).toNat "")) ∧
      (i < -(xs.length : Int) ∨ (xs.length : Int) ≤ i →
        accessorIndex nm (PyVal.vlist xs) i = Except.error
          ("Macro index out of range: " ++ nm ++ "![" ++ toString i ++ "] (len=" ++
            toString xs.length ++ ")"))) ∧
    (∀ (nm s : String) (i : Int),
      (i = 0 → accessorIndex nm (PyVal.scalar s) i = Except.ok s) ∧
      (i ≠ 0 → accessorIndex nm (PyVal.scalar s) i = Except.error
        ("Cannot use index operator ![] on non-variadic: " ++ nm))) ∧
    transpileLines false [⟨"!macro F(*xs): print(xs![5])\n", "main", 1⟩,
        ⟨"F(1,2,3)\n", "main", 2⟩] 25 =
      some (Except.error "Macro index out of range: xs![5] (len=3)") := by
  refine ⟨?_, ?_, rfl⟩
  · intro nm xs i
    constructor
    · rintro (⟨h0, h1⟩ | ⟨h0, h1⟩)
      · unfold accessorIndex
        dsimp only
        rw [if_pos (by simp [h0, h1])]
        rw [Int.emod_eq_of_lt h0 h1]
      · unfold accessorIndex
        dsimp only
        have hn0 : ¬ (0 ≤ i) := by omega
        rw [if_neg (by simp [hn0]), if_pos (by simp [h0, h1])]
        have hmod : i % (xs.length : Int) = i + (xs.length : Int) := by
          have hrw : i % (xs.length : Int) =
              (i + (xs.length : Int) * 1) % (xs.length : Int) := by
            rw [Int.add_mul_emod_self_left]
          rw [hrw, mul_one]
          exact Int.emod_eq_of_lt (by omega) (by omega)
        rw [hmod]
        rw [Int.add_comm]
    · intro hout
      unfold accessorIndex
      dsimp only
      rw [if_neg (by simp; omega), if_neg (by simp; omega)]
  · intro nm s i
    constructor
    · intro h
      unfold accessorIndex
      dsimp only
      rw [if_pos h]
    · intro h
      unfold accessorIndex
      dsimp only
      rw [if_neg h]

/-- Claim C7, witness: `xs![-1]` on a three-element binding yields the
last element. -/
theorem c7_witness :
    accessorIndex "xs" (PyVal.vlist ["1", "2", "3"]) (-1) = Except.ok "3" := by
  have h := ((c7_amended.1 "xs" ["1", "2", "3"] (-1)).1 (Or.inr (by decide)))
  exact h.trans rfl

/-- Claim C6: when a modulus `M` is set, a line whose code part matches
`LHS %OP= RHS` is rewritten to `LHS=(LHS OP (RHS))%(M)` for OP in
`{+,-,*}` and to the Fermat modular-inverse form
`LHS=(LHS*pow(RHS,(M)-2,(M)))%(M)` for `/`, with any `#` comment
re-appended; e.g. under `$mod 1000000007` the line `a %*= b+1 # c`
becomes `a=(a*(b+1))%(1000000007) # c`. -/
theorem c6_mod_rewrite :
    (∀ (text M : String) (ind lhsRaw : List Char) (op : Char) (rhsRaw : List Char),
      M ≠ "" →
      modOpMatch (splitComment text).1.data = some (ind, lhsRaw, op, rhsRaw) →
      (op ≠ '/' →
        processModOps text (some M) =
          String.mk (rstripL
            (if (splitComment text).2 ≠ "" then
              String.mk ind ++ String.mk (stripL lhsRaw) ++ "=(" ++ String.mk (stripL lhsRaw) ++
                String.mk [op] ++ "(" ++ String.mk (stripL rhsRaw) ++ "))%" ++
                ("(" ++ M ++ ")") ++ " " ++ (splitComment text).2
            else
              String.mk ind ++ String.mk (stripL lhsRaw) ++ "=(" ++ String.mk (stripL lhsRaw) ++
                String.mk [op] ++ "(" ++ String.mk (stripL rhsRaw) ++ "))%" ++
                ("(" ++ M ++ ")")).data) ++ "\n") ∧
      (op = '/' →
        processModOps text (some M) =
          String.mk (rstripL
            (if (splitComment text).2 ≠ "" then
              String.mk ind ++ String.mk (stripL lhsRaw) ++ "=(" ++ String.mk (stripL lhsRaw) ++
                "*pow(" ++ String.mk (stripL rhsRaw) ++ "," ++ ("(" ++ M ++ ")") ++ "-2," ++
                ("(" ++ M ++ ")") ++ "))%" ++ ("(" ++ M ++ ")") ++ " " ++ (splitComment text).2
            else
              String.mk ind ++ String.mk (stripL lhsRaw) ++ "=(" ++ String.mk (stripL lhsRaw) ++
                "*pow(" ++ String.mk (stripL rhsRaw) ++ "," ++ ("(" ++ M ++ ")") ++ "-2," ++
                ("(" ++ M ++ ")") ++ "))%" ++ ("(" ++ M ++ ")")).data) ++ "\n")) ∧
    processModOps "a %*= b+1 # c\n" (some "1000000007") = "a=(a*(b+1))%(1000000007) # c\n" ∧
    processModOps "x %/= y\n" (some "1000000007") =
      "x=(x*pow(y,(1000000007)-2,(1000000007)))%(1000000007)\n" ∧
    processModOps "a %+= b\n" (some "7") = "a=(a+(b))%(7)\n" ∧
    processModOps "a %-= b\n" (some "7") = "a=(a-(b))%(7)\n" ∧
    processModOps "q %= r\n" (some "7") = "q %= r\n" := by
  refine ⟨?_, rfl, rfl, rfl, rfl, rfl⟩
  intro text M ind lhsRaw op rhsRaw hM hmatch
  constructor
  · intro hop
    unfold processModOps
    dsimp only
    rw [if_neg hM, hmatch]
    dsimp only
    rw [if_neg hop]
  · intro hop
    unfold processModOps
    dsimp only
    rw [if_neg hM, hmatch]
    dsimp only
    rw [if_pos hop]

/-- Claim C6, witness: the rewrite theorem applied to the claim's own
example line. -/
theorem c6_witness :
    processModOps "a %*= b+1 # note\n" (some "1000000007") =
      "a=(a*(b+1))%(1000000007) # note\n" := by
  have h := ((c6_mod_rewrite.1 "a %*= b+1 # note\n" "1000000007" [] ['a'] '*'
    ['b', '+', '1', ' '] (by decide) rfl).1 (by decide))
  exact h.trans rfl

/-- Origin-coordinate provenance: the line carries the file and line
number of some line of `src`. -/
def coordsIn (l : SourceLine) (src : List SourceLine) : Prop :=
  ∃ b ∈ src, l.filename = b.filename ∧ l.lineno = b.lineno

/-- Provenance is transitive along provenance of the sources. -/
theorem coordsIn_mono {l : SourceLine} {src src' : List SourceLine}
    (h : coordsIn l src) (hsub : ∀ b ∈ src, coordsIn b src') : coordsIn l src' := by
  obtain ⟨b, hb, h1, h2⟩ := h
  obtain ⟨c, hc, h3, h4⟩ := hsub b hb
  exact ⟨c, hc, h1.trans h3, h2.trans h4⟩

/-- Membership gives provenance. -/
theorem coordsIn_of_mem {l : SourceLine} {src : List SourceLine} (h : l ∈ src) :
    coordsIn l src :=
  ⟨l, h, rfl, rfl⟩

/-- Both parts of `extract_block` consist of input lines. -/
theorem extractBlock_subset (lines : List SourceLine) (k : Nat) :
    (∀ l ∈ (extractBlock lines k).1, l ∈ lines) ∧
    (∀ l ∈ (extractBlock lines k).2, l ∈ lines) := by
  unfold extractBlock
  rw [List.span_eq_take_drop]
  exact ⟨fun l hl => List.takeWhile_subset _ hl, fun l hl => List.dropWhile_subset _ hl⟩

/-- The body rewrite keeps each line's origin coordinates. -/
theorem rewriteBodyLines_coords (repl : Repl) :
    ∀ (lines out : List SourceLine), rewriteBodyLines repl lines = Except.ok out →
      ∀ l ∈ out, coordsIn l lines := by
  intro lines
  induction lines with
  | nil =>
    intro out h l hl
    have h' : (Except.ok [] : Except String (List SourceLine)) = Except.ok out := h
    cases h'
    cases hl
  | cons sl rest ih =>
    intro out h l hl
    simp only [rewriteBodyLines] at h
    cases h1 : processMacroOps sl.content repl with
    | error e => rw [h1] at h; cases h
    | ok t1 =>
      rw [h1] at h
      cases h2 : rewriteBodyLines repl rest with
      | error e => rw [h2] at h; cases h
      | ok tail =>
        rw [h2] at h
        have h' : (Except.ok (⟨safeReplace t1 repl, sl.filename, sl.lineno⟩ :: tail) :
            Except String (List SourceLine)) = Except.ok out := h
        cases h'
        rcases List.mem_cons.mp hl with rfl | hmem
        · exact ⟨sl, List.mem_cons_self _ _, rfl, rfl⟩
        · exact coordsIn_mono (ih tail h2 l hmem)
            (fun b hb => coordsIn_of_mem (List.mem_cons_of_mem _ hb))

/-- The `!elif`/`!else` chain scan produces a block whose lines come from
the accumulated block or from the scanned lines, and a remainder of
scanned lines. -/
theorem chainScan_coords (repl : Repl) :
    ∀ (fuel : Nat) (done : Bool) (acc lines : List SourceLine)
      (res : List SourceLine × List SourceLine),
      chainScan repl fuel done acc lines = Except.ok res →
      (∀ l ∈ res.1, l ∈ acc ∨ coordsIn l lines) ∧ (∀ l ∈ res.2, l ∈ lines) := by
  intro fuel
  induction fuel with
  | zero =>
    intro done acc lines res h
    simp only [chainScan] at h
    cases h
    exact ⟨fun l hl => Or.inl hl, fun l hl => hl⟩
  | succ fuel ih =>
    intro done acc lines res h
    cases lines with
    | nil =>
      simp only [chainScan] at h
      cases h
      exact ⟨fun l hl => Or.inl hl, fun l hl => hl⟩
    | cons next rest =>
      unfold chainScan at h
      dsimp only at h
      cases hel : matchElifLine (pyStrip next.content) with
      | some pr =>
        rw [hel] at h
        obtain ⟨rawE, inlineRaw⟩ := pr
        dsimp only at h
        cases hmo : processMacroOps (pyStrip rawE) repl with
        | error e => rw [hmo] at h; cases h
        | ok expr0 =>
          rw [hmo] at h
          set br : List SourceLine × List SourceLine :=
            if pyStrip inlineRaw ≠ "" then
              ([⟨pyStrip inlineRaw ++ "\n", next.filename, next.lineno⟩], rest)
            else extractBlock rest (getIndentLength next.content) with hbr
          replace h : (if (!done && evaluateCondition (safeReplace expr0 repl)) = true then
              chainScan repl fuel true br.1 br.2
            else chainScan repl fuel done acc br.2) = Except.ok res := h
          have hbr1 : ∀ l ∈ br.1, coordsIn l (next :: rest) := by
            rw [hbr]
            split
            · intro l hl
              rcases List.mem_singleton.mp hl with rfl
              exact ⟨next, List.mem_cons_self _ _, rfl, rfl⟩
            · intro l hl
              exact coordsIn_of_mem
                (List.mem_cons_of_mem _ ((extractBlock_subset rest _).1 l hl))
          have hbr2 : ∀ l ∈ br.2, l ∈ next :: rest := by
            rw [hbr]
            split
            · intro l hl; exact List.mem_cons_of_mem _ hl
            · intro l hl
              exact List.mem_cons_of_mem _ ((extractBlock_subset rest _).2 l hl)
          by_cases hcond : (!done && evaluateCondition (safeReplace expr0 repl)) = true
          · rw [if_pos hcond] at h
            obtain ⟨ha, hb⟩ := ih true br.1 br.2 res h
            refine ⟨fun l hl => ?_, fun l hl => hbr2 l (hb l hl)⟩
            rcases ha l hl with hmem | hco
            · exact Or.inr (hbr1 l hmem)
            · exact Or.inr (coordsIn_mono hco (fun b hbm => coordsIn_of_mem (hbr2 b hbm)))
          · rw [if_neg hcond] at h
            obtain ⟨ha, hb⟩ := ih done acc br.2 res h
            refine ⟨fun l hl => ?_, fun l hl => hbr2 l (hb l hl)⟩
            rcases ha l hl with hmem | hco
            · exact Or.inl hmem
            · exact Or.inr (coordsIn_mono hco (fun b hbm => coordsIn_of_mem (hbr2 b hbm)))
      | none =>
        rw [hel] at h
        cases hels : matchElseLine (pyStrip next.content) with
        | some inlineRaw =>
          rw [hels] at h
          dsimp only at h
          set br : List SourceLine × List SourceLine :=
            if pyStrip inlineRaw ≠ "" then
              ([⟨pyStrip inlineRaw ++ "\n", next.filename, next.lineno⟩], rest)
            else extractBlock rest (getIndentLength next.content) with hbr
          have hbr1 : ∀ l ∈ br.1, coordsIn l (next :: rest) := by
            rw [hbr]
            split
            · intro l hl
              rcases List.mem_singleton.mp hl with rfl
              exact ⟨next, List.mem_cons_self _ _, rfl, rfl⟩
            · intro l hl
              exact coordsIn_of_mem
                (List.mem_cons_of_mem _ ((extractBlock_subset rest _).1 l hl))
          have hbr2 : ∀ l ∈ br.2, l ∈ next :: rest := by
            rw [hbr]
            split
            · intro l hl; exact List.mem_cons_of_mem _ hl
            · intro l hl
              exact List.mem_cons_of_mem _ ((extractBlock_subset rest _).2 l hl)
          by_cases hdone : (!done) = true
          · rw [if_pos hdone] at h
            cases h
            exact ⟨fun l hl => Or.inr (hbr1 l hl), fun l hl => hbr2 l hl⟩
          · rw [if_neg hdone] at h
            cases h
            exact ⟨fun l hl => Or.inl hl, fun l hl => hbr2 l hl⟩
        | none =>
          rw [hels] at h
          cases h
          exact ⟨fun l hl => Or.inl hl, fun l hl => hl⟩

/-- Dedenting keeps each line's origin coordinates. -/
theorem dedentBlock_coords (lines : List SourceLine) :
    ∀ l ∈ dedentBlock lines, coordsIn l lines := by
  intro l hl
  unfold dedentBlock at hl
  cases lines with
  | nil => cases hl
  | cons a as =>
    dsimp only at hl
    obtain ⟨b, hb, rfl⟩ := List.mem_map.mp hl
    refine ⟨b, hb, ?_, ?_⟩ <;> (repeat' split) <;> rfl

/-- The conditional processor only emits lines carrying coordinates of
body lines. -/
theorem processConditionalsF_coords (repl : Repl) :
    ∀ (fuel : Nat) (lines out : List SourceLine),
      processConditionalsF repl fuel lines = Except.ok out →
      ∀ l ∈ out, coordsIn l lines := by
  intro fuel
  induction fuel with
  | zero =>
    intro lines out h
    cases h
  | succ fuel ih =>
    intro lines out h
    cases lines with
    | nil =>
      have h' : (Except.ok [] : Except String (List SourceLine)) = Except.ok out := h
      cases h'
      intro l hl
      cases hl
    | cons sl rest =>
      unfold processConditionalsF at h
      dsimp only at h
      cases hifm : matchIfLine (pyStrip sl.content) with
      | some pr =>
        rw [hifm] at h
        obtain ⟨rawE, inlineRaw⟩ := pr
        dsimp only at h
        cases hmo : processMacroOps (pyStrip rawE) repl with
        | error e => rw [hmo] at h; cases h
        | ok expr0 =>
          rw [hmo] at h
          set br : List SourceLine × List SourceLine :=
            if pyStrip inlineRaw ≠ "" then
              ([⟨pyStrip inlineRaw ++ "\n", sl.filename, sl.lineno⟩], rest)
            else extractBlock rest (getIndentLength sl.content) with hbr
          have hbr1 : ∀ l ∈ br.1, coordsIn l (sl :: rest) := by
            rw [hbr]
            split
            · intro l hl
              rcases List.mem_singleton.mp hl with rfl
              exact ⟨sl, List.mem_cons_self _ _, rfl, rfl⟩
            · intro l hl
              exact coordsIn_of_mem
                (List.mem_cons_of_mem _ ((extractBlock_subset rest _).1 l hl))
          have hbr2 : ∀ l ∈ br.2, l ∈ sl :: rest := by
            rw [hbr]
            split
            · intro l hl; exact List.mem_cons_of_mem _ hl
            · intro l hl
              exact List.mem_cons_of_mem _ ((extractBlock_subset rest _).2 l hl)
          replace h : (do
              let chosen ← chainScan repl (br.2.length + 1)
                (evaluateCondition (safeReplace expr0 repl))
                (if evaluateCondition (safeReplace expr0 repl) then br.1 else []) br.2
              let sub ← processConditionalsF repl fuel chosen.1
              let tail ← processConditionalsF repl fuel chosen.2
              Except.ok (sub ++ tail)) = Except.ok out := h
          cases hcs : chainScan repl (br.2.length + 1)
              (evaluateCondition (safeReplace expr0 repl))
              (if evaluateCondition (safeReplace expr0 repl) then br.1 else []) br.2 with
          | error e => rw [hcs] at h; cases h
          | ok chosen =>
            rw [hcs] at h
            replace h : (do
                let sub ← processConditionalsF repl fuel chosen.1
                let tail ← processConditionalsF repl fuel chosen.2
                Except.ok (sub ++ tail)) = Except.ok out := h
            obtain ⟨hc1, hc2⟩ := chainScan_coords repl _ _ _ _ _ hcs
            have hacc : ∀ l ∈ (if evaluateCondition (safeReplace expr0 repl) then br.1
                else []), coordsIn l (sl :: rest) := by
              split
              · exact hbr1
              · intro l hl; cases hl
            cases hsub : processConditionalsF repl fuel chosen.1 with
            | error e => rw [hsub] at h; cases h
            | ok sub =>
              rw [hsub] at h
              cases htail : processConditionalsF repl fuel chosen.2 with
              | error e => rw [htail] at h; cases h
              | ok tail =>
                rw [htail] at h
                have h' : (Except.ok (sub ++ tail) :
                    Except String (List SourceLine)) = Except.ok out := h
                cases h'
                intro l hl
                rcases List.mem_append.mp hl with hmem | hmem
                · refine coordsIn_mono (ih chosen.1 sub hsub l hmem) ?_
                  intro b hbm
                  rcases hc1 b hbm with hin | hco
                  · exact hacc b hin
                  · exact coordsIn_mono hco
                      (fun c hcm => coordsIn_of_mem (hbr2 c hcm))
                · refine coordsIn_mono (ih chosen.2 tail htail l hmem) ?_
                  intro b hbm
                  exact coordsIn_of_mem (hbr2 b (hc2 b hbm))
      | none =>
        rw [hifm] at h
        cases htail : processConditionalsF repl fuel rest with
        | error e => rw [htail] at h; cases h
        | ok tail =>
          rw [htail] at h
          have h' : (Except.ok (sl :: tail) :
              Except String (List SourceLine)) = Except.ok out := h
          cases h'
          intro l hl
          rcases List.mem_cons.mp hl with rfl | hmem
          · exact coordsIn_of_mem (List.mem_cons_self _ _)
          · exact coordsIn_mono (ih rest tail htail l hmem)
              (fun b hb => coordsIn_of_mem (List.mem_cons_of_mem _ hb))

/-- The emission step yields lines carrying either the caller's
coordinates or a rewritten body line's coordinates. -/
theorem assembleExpansion_coords (sl : SourceLine) (m : String)
    (fl : List SourceLine) :
    ∀ l ∈ assembleExpansion sl m fl,
      (l.filename = sl.filename ∧ l.lineno = sl.lineno) ∨ coordsIn l fl := by
  intro l hl
  unfold assembleExpansion at hl
  dsimp only at hl
  split at hl
  · rcases List.mem_singleton.mp hl with rfl
    exact Or.inl ⟨rfl, rfl⟩
  · split at hl
    · split at hl
      · cases hl
      · rcases List.mem_singleton.mp hl with rfl
        exact Or.inl ⟨rfl, rfl⟩
    · split at hl
      · cases hl
      · obtain ⟨b, hb, rfl⟩ := List.mem_map.mp hl
        exact Or.inr (coordsIn_mono ⟨b, hb, rfl, rfl⟩ (dedentBlock_coords fl))

/-- C1 (amended): every line emitted by `expand_body` carries either the
caller line's origin coordinates (partial-line substitution, erasure, and
tombstone erasure) or the origin coordinates of one of the definition's
body lines (the whole-line block path, `pyx.py` lines 583-588, keeps
`body_sl.filename`/`body_sl.lineno`, not the caller's). -/
theorem c1_amended (d : Definition) (callArgs : List String) (sl : SourceLine)
    (matchStr : String) (callerObj : Option String) (ls : List SourceLine)
    (h : expandBody d callArgs sl matchStr callerObj = Except.ok ls) :
    ∀ l ∈ ls, (l.filename = sl.filename ∧ l.lineno = sl.lineno) ∨
      coordsIn l d.bodyLines := by
  intro l hl
  unfold expandBody at h
  by_cases hdel : d.isDeleted
  · rw [if_pos hdel] at h
    dsimp only at h
    by_cases hs : pyStrip (replaceAll sl.content matchStr "") = ""
    · rw [if_pos hs] at h
      cases h
      cases hl
    · rw [if_neg hs] at h
      cases h
      rcases List.mem_singleton.mp hl with rfl
      exact Or.inl ⟨rfl, rfl⟩
  · rw [if_neg hdel] at h
    replace h : (do
        let processed ← processConditionals
          (d.bodyLines.map (fun b => (⟨b.content, b.filename, b.lineno⟩ : SourceLine)))
          (bindParamsGo (bindPlaceholder d callerObj []) d.params callArgs)
        let finalLines ← rewriteBodyLines
          (bindParamsGo (bindPlaceholder d callerObj []) d.params callArgs) processed
        Except.ok (assembleExpansion sl matchStr finalLines)) = Except.ok ls := h
    cases hpc : processConditionals
        (d.bodyLines.map (fun b => (⟨b.content, b.filename, b.lineno⟩ : SourceLine)))
        (bindParamsGo (bindPlaceholder d callerObj []) d.params callArgs) with
    | error e => rw [hpc] at h; cases h
    | ok processed =>
      rw [hpc] at h
      replace h : (do
          let finalLines ← rewriteBodyLines
            (bindParamsGo (bindPlaceholder d callerObj []) d.params callArgs) processed
          Except.ok (assembleExpansion sl matchStr finalLines)) = Except.ok ls := h
      cases hrw : rewriteBodyLines
          (bindParamsGo (bindPlaceholder d callerObj []) d.params callArgs) processed with
      | error e => rw [hrw] at h; cases h
      | ok finalLines =>
        rw [hrw] at h
        have h' : (Except.ok (assembleExpansion sl matchStr finalLines) :
            Except String (List SourceLine)) = Except.ok ls := h
        cases h'
        rcases assembleExpansion_coords sl matchStr finalLines l hl with hc | hc
        · exact Or.inl hc
        · refine Or.inr (coordsIn_mono hc ?_)
          intro b hb
          refine coordsIn_mono (rewriteBodyLines_coords _ _ _ hrw b hb) ?_
          intro c hc2
          have hpc' : processConditionalsF
              (bindParamsGo (bindPlaceholder d callerObj []) d.params callArgs)
              (linesSize (d.bodyLines.map
                (fun b => (⟨b.content, b.filename, b.lineno⟩ : SourceLine))))
              (d.bodyLines.map
                (fun b => (⟨b.content, b.filename, b.lineno⟩ : SourceLine))) =
              Except.ok processed := hpc
          refine coordsIn_mono (processConditionalsF_coords _ _ _ _ hpc' c hc2) ?_
          intro e he
          obtain ⟨b0, hb0, heq⟩ := List.mem_map.mp he
          exact ⟨b0, hb0, by rw [← heq], by rw [← heq]⟩

/-- Witness for C1 at a concrete inline expansion: the single replacement
line keeps the caller's coordinates. -/
theorem c1_witness :
    expandBody (mkDefinition "SQ" "x" [⟨"x*x\n", "main", 1⟩] true false)
      ["4"] ⟨"y = SQ(3+1)\n", "main", 2⟩ "SQ(3+1)" none =
      Except.ok [⟨"y = 4*4\n", "main", 2⟩] ∧
    (((⟨"y = 4*4\n", "main", 2⟩ : SourceLine).filename = "main" ∧
        (⟨"y = 4*4\n", "main", 2⟩ : SourceLine).lineno = 2) ∨
      coordsIn ⟨"y = 4*4\n", "main", 2⟩
        (mkDefinition "SQ" "x" [⟨"x*x\n", "main", 1⟩] true false).bodyLines) :=
  ⟨rfl, c1_amended (mkDefinition "SQ" "x" [⟨"x*x\n", "main", 1⟩] true false)
    ["4"] ⟨"y = SQ(3+1)\n", "main", 2⟩ "SQ(3+1)" none
    [⟨"y = 4*4\n", "main", 2⟩] rfl ⟨"y = 4*4\n", "main", 2⟩
    (List.mem_singleton.mpr rfl)⟩


/-- Overriding an empty pair changes nothing. -/
theorem overrideEntry_bot (e : DefEntry) : overrideEntry e ⟨none, none⟩ = e := by
  obtain ⟨n, d⟩ := e
  cases n <;> cases d <;> rfl

/-- A key outside the table looks up to nothing. -/
theorem entryLookup_not_mem (items : ActiveDefs) (nm : String)
    (h : nm ∉ items.map Prod.fst) : entryLookup items nm = none := by
  unfold entryLookup
  rw [List.find?_eq_none.mpr]
  · rfl
  · intro kv hkv
    simp only [decide_eq_true_eq]
    intro heq
    exact h (List.mem_map.mpr ⟨kv, hkv, heq⟩)

/-- The slot update of `mergeEntry` keeps every key. -/
theorem override_comp_key (nm nm' : String) (e : DefEntry) :
    ((fun kv => decide (kv.1 = nm')) ∘
        (fun kv : String × DefEntry =>
          if kv.1 = nm then (kv.1, overrideEntry e kv.2) else kv)) =
      (fun kv : String × DefEntry => decide (kv.1 = nm')) := by
  funext kv
  by_cases hk : kv.1 = nm
  · simp [Function.comp, hk]
  · simp [Function.comp, hk]

/-- Finding the merged key in the slot-updated table. -/
theorem find_override (base : ActiveDefs) (nm : String) (e : DefEntry) :
    (base.map (fun kv => if kv.1 = nm then (kv.1, overrideEntry e kv.2) else kv)).find?
        (fun kv => kv.1 = nm) =
      (base.find? (fun kv => kv.1 = nm)).map
        (fun kv => (kv.1, overrideEntry e kv.2)) := by
  rw [List.find?_map, override_comp_key nm nm e]
  cases hf : base.find? (fun kv => decide (kv.1 = nm)) with
  | none => rfl
  | some kv =>
    have hkey : kv.1 = nm := by simpa using List.find?_some hf
    simp [Option.map, hkey]

/-- Finding an unrelated key in the slot-updated table. -/
theorem find_override_ne (base : ActiveDefs) (nm nm' : String) (e : DefEntry)
    (h : nm' ≠ nm) :
    (base.map (fun kv => if kv.1 = nm then (kv.1, overrideEntry e kv.2) else kv)).find?
        (fun kv => kv.1 = nm') = base.find? (fun kv => kv.1 = nm') := by
  rw [List.find?_map, override_comp_key nm nm' e]
  cases hf : base.find? (fun kv => decide (kv.1 = nm')) with
  | none => rfl
  | some kv =>
    have hkey : kv.1 = nm' := by simpa using List.find?_some hf
    have hne : ¬(kv.1 = nm) := by rw [hkey]; exact h
    simp [Option.map, hne]

/-- Merging a pair and looking it up: the incoming slots override whatever
was there. -/
theorem entryLookup_mergeEntry_self (base : ActiveDefs) (nm : String) (e : DefEntry) :
    entryLookup (mergeEntry base nm e) nm =
      some (overrideEntry e ((entryLookup base nm).getD ⟨none, none⟩)) := by
  unfold mergeEntry entryLookup
  split
  case isTrue hmem =>
    rw [find_override]
    cases hf : base.find? (fun kv => kv.1 = nm) with
    | none =>
      exfalso
      obtain ⟨x, hx, hpx⟩ := List.any_eq_true.mp hmem
      exact absurd hpx (by simpa using List.find?_eq_none.mp hf x hx)
    | some kv => simp [hf]
  case isFalse hmem =>
    have hf : base.find? (fun kv => kv.1 = nm) = none := by
      rw [List.find?_eq_none]
      intro x hx hpx
      exact hmem (List.any_eq_true.mpr ⟨x, hx, hpx⟩)
    rw [List.find?_append, hf]
    simp [List.find?, hf]

/-- Merging a pair leaves every other key's lookup unchanged. -/
theorem entryLookup_mergeEntry_ne (base : ActiveDefs) (nm nm' : String) (e : DefEntry)
    (h : nm' ≠ nm) :
    entryLookup (mergeEntry base nm e) nm' = entryLookup base nm' := by
  unfold mergeEntry entryLookup
  split
  · rw [find_override_ne base nm nm' e h]
  · have hone : ([(nm, overrideEntry e ⟨none, none⟩)].find? (fun kv => kv.1 = nm')) = none := by
      have : ¬(nm = nm') := fun hh => h hh.symm
      simp [List.find?, this]
    rw [List.find?_append, hone]
    cases base.find? (fun kv => kv.1 = nm') <;> rfl

/-- Looking up a merged table: a key the merged items carry (uniquely) is
overridden slot by slot; any other key keeps the base's binding. -/
theorem entryLookup_mergeDefs :
    ∀ (items base : ActiveDefs) (nm : String),
      ((items.map Prod.fst).Nodup) →
      entryLookup (mergeDefs base items) nm =
        match entryLookup items nm with
        | some e => some (overrideEntry e ((entryLookup base nm).getD ⟨none, none⟩))
        | none => entryLookup base nm := by
  intro items
  induction items with
  | nil => intro base nm _; rfl
  | cons kv rest ih =>
    intro base nm hnd
    obtain ⟨k, e⟩ := kv
    simp only [List.map_cons, List.nodup_cons] at hnd
    obtain ⟨hk, hnd'⟩ := hnd
    have hstep : mergeDefs base ((k, e) :: rest) = mergeDefs (mergeEntry base k e) rest := rfl
    rw [hstep, ih (mergeEntry base k e) nm hnd']
    by_cases hnm : nm = k
    · subst hnm
      have hrest : entryLookup rest nm = none := entryLookup_not_mem rest nm hk
      have hhead : entryLookup ((nm, e) :: rest) nm = some e := by
        simp [entryLookup, List.find?]
      rw [hrest, hhead, entryLookup_mergeEntry_self]
    · have hhead : entryLookup ((k, e) :: rest) nm = entryLookup rest nm := by
        have : ¬(k = nm) := fun hh => hnm hh.symm
        simp [entryLookup, List.find?, this]
      rw [hhead, entryLookup_mergeEntry_ne base k nm e hnm]

/-- Registering a declaration keeps the key list duplicate-free: an
existing key is updated in place, a new key is appended. -/
theorem declRegister_keys_nodup (m : ActiveDefs) (d : Definition)
    (h : (m.map Prod.fst).Nodup) : ((declRegister m d).map Prod.fst).Nodup := by
  unfold declRegister
  dsimp only
  split
  case isTrue hany =>
    have hkeys : (m.map (fun kv =>
        if kv.1 = d.name then (kv.1, if d.isDebug then { kv.2 with debug := some d }
          else { kv.2 with normal := some d }) else kv)).map Prod.fst = m.map Prod.fst := by
      rw [List.map_map]
      apply List.map_congr_left
      intro kv _
      by_cases hk : kv.1 = d.name
      · simp [Function.comp, hk]
      · simp [Function.comp, hk]
    rw [hkeys]
    exact h
  case isFalse hany =>
    rw [List.map_append, List.nodup_append]
    refine ⟨h, List.nodup_singleton _, ?_⟩
    intro a ha hb
    rcases List.mem_singleton.mp hb with rfl
    apply hany
    obtain ⟨kv, hkv, hkey⟩ := List.mem_map.mp ha
    exact List.any_eq_true.mpr ⟨kv, hkv, by simpa using hkey⟩

/-- The declaration scan of `parse_namespace_content` keeps the key list
duplicate-free. -/
theorem parseNSCGo_keys_nodup :
    ∀ (fuel : Nat) (lines : List SourceLine) (defs : ActiveDefs),
      ((defs.map Prod.fst).Nodup) →
      (((parseNSCGo fuel lines defs).1).map Prod.fst).Nodup := by
  intro fuel
  induction fuel with
  | zero => intro lines defs h; exact h
  | succ fuel ih =>
    intro lines defs h
    cases lines with
    | nil => exact h
    | cons sl rest =>
      unfold parseNSCGo
      dsimp only
      cases hm : matchMacroDecl (pyStrip sl.content) with
      | some q =>
        obtain ⟨isDbg, namePart, argsStr, inlineBody⟩ := q
        dsimp only
        exact ih _ _ (declRegister_keys_nodup _ _ h)
      | none =>
        dsimp only
        cases hd : matchDefineDecl (pyStrip sl.content) with
        | some q =>
          obtain ⟨isDbg, namePart, inlineBody⟩ := q
          dsimp only
          exact ih _ _ (declRegister_keys_nodup _ _ h)
        | none =>
          dsimp only
          exact ih _ _ h

/-- The definition table parsed out of a namespace has duplicate-free
keys (it stands for a Python dict). -/
theorem parseNamespaceContent_keys_nodup (lines : List SourceLine) :
    (((parseNamespaceContent lines).1).map Prod.fst).Nodup :=
  parseNSCGo_keys_nodup _ _ [] List.nodup_nil

/-- C10: the implicit import of the `default` namespace at the start of
`transpile` (`pyx.py`, lines 677-683) merges the `default` namespace's
definitions after the main stream's, so a `default` definition with the
same name overwrites the main-stream one slot by slot (normal overrides
normal, debug overrides debug, and an absent slot keeps the main-stream
occupant); the `default` namespace's non-declaration lines are spliced
before the first main-stream line. -/
theorem c10_default_import (isExec : Bool) (lines content : List SourceLine)
    (hdef : nsLookup (extractNamespaces lines).1 "default" = some content) :
    (transpileSetup isExec lines).work =
      (parseNamespaceContent content).2 ++
        (parseNamespaceContent (extractNamespaces lines).2).2 ∧
    ∀ nm : String,
      entryLookup (transpileSetup isExec lines).defs nm =
        match entryLookup (parseNamespaceContent content).1 nm,
            entryLookup (parseNamespaceContent (extractNamespaces lines).2).1 nm with
        | some e, some g => some (overrideEntry e g)
        | some e, none => some e
        | none, some g => some g
        | none, none => none := by
  have hst : transpileSetup isExec lines =
      { work := (parseNamespaceContent content).2 ++
          (parseNamespaceContent (extractNamespaces lines).2).2
        defs := mergeDefs
          (mergeDefs [] (parseNamespaceContent (extractNamespaces lines).2).1)
          (parseNamespaceContent content).1
        nss := (extractNamespaces lines).1
        isExecMode := isExec
        modValue := none
        casesIndentLevel := 0
        expansionCounter := 0
        output := [] } := by
    unfold transpileSetup
    dsimp only
    rw [hdef]
  constructor
  · rw [hst]
  · intro nm
    rw [hst]
    dsimp only
    rw [entryLookup_mergeDefs _ _ nm (parseNamespaceContent_keys_nodup content),
      entryLookup_mergeDefs _ _ nm
        (parseNamespaceContent_keys_nodup (extractNamespaces lines).2)]
    have hnil : entryLookup ([] : ActiveDefs) nm = none := rfl
    rw [hnil]
    cases he : entryLookup (parseNamespaceContent content).1 nm with
    | none =>
      cases hg : entryLookup (parseNamespaceContent (extractNamespaces lines).2).1 nm with
      | none => rfl
      | some g => simp [overrideEntry_bot]
    | some e =>
      cases hg : entryLookup (parseNamespaceContent (extractNamespaces lines).2).1 nm with
      | none => simp [overrideEntry_bot]
      | some g => simp [overrideEntry_bot]

/-- Witness for C10 at a concrete program: a `default` namespace carrying
a define `A` and a raw line `pre`, and a main stream redefining `A`. -/
theorem c10_witness :
    (transpileSetup false [⟨"$namespace default\n", "m", 1⟩, ⟨"!define A: 1\n", "m", 2⟩,
        ⟨"pre\n", "m", 3⟩, ⟨"$\n", "m", 4⟩, ⟨"!define A: 2\n", "m", 5⟩,
        ⟨"body\n", "m", 6⟩]).work =
      (parseNamespaceContent [⟨"!define A: 1\n", "m", 2⟩, ⟨"pre\n", "m", 3⟩]).2 ++
        (parseNamespaceContent (extractNamespaces [⟨"$namespace default\n", "m", 1⟩,
          ⟨"!define A: 1\n", "m", 2⟩, ⟨"pre\n", "m", 3⟩, ⟨"$\n", "m", 4⟩,
          ⟨"!define A: 2\n", "m", 5⟩, ⟨"body\n", "m", 6⟩]).2).2 ∧
    entryLookup (transpileSetup false [⟨"$namespace default\n", "m", 1⟩,
        ⟨"!define A: 1\n", "m", 2⟩, ⟨"pre\n", "m", 3⟩, ⟨"$\n", "m", 4⟩,
        ⟨"!define A: 2\n", "m", 5⟩, ⟨"body\n", "m", 6⟩]).defs "A" =
      match entryLookup (parseNamespaceContent [⟨"!define A: 1\n", "m", 2⟩,
          ⟨"pre\n", "m", 3⟩]).1 "A",
        entryLookup (parseNamespaceContent (extractNamespaces [⟨"$namespace default\n", "m", 1⟩,
          ⟨"!define A: 1\n", "m", 2⟩, ⟨"pre\n", "m", 3⟩, ⟨"$\n", "m", 4⟩,
          ⟨"!define A: 2\n", "m", 5⟩, ⟨"body\n", "m", 6⟩]).2).1 "A" with
      | some e, some g => some (overrideEntry e g)
      | some e, none => some e
      | none, some g => some g
      | none, none => none :=
  ⟨(c10_default_import false [⟨"$namespace default\n", "m", 1⟩, ⟨"!define A: 1\n", "m", 2⟩,
      ⟨"pre\n", "m", 3⟩, ⟨"$\n", "m", 4⟩, ⟨"!define A: 2\n", "m", 5⟩, ⟨"body\n", "m", 6⟩]
      [⟨"!define A: 1\n", "m", 2⟩, ⟨"pre\n", "m", 3⟩] rfl).1,
    (c10_default_import false [⟨"$namespace default\n", "m", 1⟩, ⟨"!define A: 1\n", "m", 2⟩,
      ⟨"pre\n", "m", 3⟩, ⟨"$\n", "m", 4⟩, ⟨"!define A: 2\n", "m", 5⟩, ⟨"body\n", "m", 6⟩]
      [⟨"!define A: 1\n", "m", 2⟩, ⟨"pre\n", "m", 3⟩] rfl).2 "A"⟩

/-- A string that does not start with `$` starts with no `$`-prefixed
directive word either. -/
theorem startsWith_dollar_false (p s : String) (hp : startsWithS "$" p = true)
    (h : startsWithS "$" s = false) : startsWithS p s = false := by
  cases hps : startsWithS p s
  · rfl
  · exfalso
    have h1 : "$".data <+: p.data := List.isPrefixOf_iff_prefix.mp hp
    have h2 : p.data <+: s.data := List.isPrefixOf_iff_prefix.mp hps
    have h3 : startsWithS "$" s = true := List.isPrefixOf_iff_prefix.mpr (h1.trans h2)
    rw [h] at h3
    cases h3

/-- On a stream with no `$`-opening stripped line, namespace extraction
extracts nothing. -/
theorem extractGo_clean (buf : List SourceLine) (nss : List (String × List SourceLine)) :
    ∀ lines : List SourceLine,
      (∀ l ∈ lines, startsWithS "$" (pyStrip l.content) = false) →
      extractGo lines none buf nss = (nss, lines) := by
  intro lines
  induction lines with
  | nil => intro _; rfl
  | cons sl rest ih =>
    intro h
    have hds := h sl (List.mem_cons_self _ _)
    have h1 : startsWithS "$namespace" (pyStrip sl.content) = false :=
      startsWith_dollar_false "$namespace" _ (by decide) hds
    have h3 : startsWithS "$name" (pyStrip sl.content) = false :=
      startsWith_dollar_false "$name" _ (by decide) hds
    unfold extractGo
    dsimp only
    simp only [h1, h3, Option.isSome_none, Bool.and_false, Bool.false_eq_true, if_false]
    rw [ih (fun l hl => h l (List.mem_cons_of_mem _ hl))]

/-- On a stream with no declaration line, the declaration scan parses
nothing and keeps every line. -/
theorem parseNSCGo_clean :
    ∀ (fuel : Nat) (lines : List SourceLine) (defs : ActiveDefs),
      (∀ l ∈ lines, matchMacroDecl (pyStrip l.content) = none ∧
        matchDefineDecl (pyStrip l.content) = none) →
      parseNSCGo fuel lines defs = (defs, lines) := by
  intro fuel
  induction fuel with
  | zero => intro lines defs _; rfl
  | succ fuel ih =>
    intro lines defs h
    cases lines with
    | nil => rfl
    | cons sl rest =>
      unfold parseNSCGo
      dsimp only
      rw [(h sl (List.mem_cons_self _ _)).1]
      dsimp only
      rw [(h sl (List.mem_cons_self _ _)).2]
      dsimp only
      rw [ih rest defs (fun l hl => h l (List.mem_cons_of_mem _ hl))]

/-- A driver step on a directive-, declaration- and marker-free line with
no active definition emits the line unchanged and drops to the next. -/
theorem transpileStep_clean (sl : SourceLine) (rest : List SourceLine) (k : Nat)
    (out : List SourceLine)
    (hds : startsWithS "$" (pyStrip sl.content) = false)
    (hdbg : debugLineSplit sl.content = none) :
    transpileStep ⟨sl :: rest, [], [], false, none, 0, k, out⟩ =
      Except.ok (Sum.inl ⟨rest, [], [], false, none, 0, 0, out ++ [sl]⟩) := by
  have hu : startsWithS "$using" (pyStrip sl.content) = false :=
    startsWith_dollar_false "$using" _ (by decide) hds
  have hm : startsWithS "$mod" (pyStrip sl.content) = false :=
    startsWith_dollar_false "$mod" _ (by decide) hds
  have hc : startsWithS "$cases" (pyStrip sl.content) = false :=
    startsWith_dollar_false "$cases" _ (by decide) hds
  unfold transpileStep
  simp only [hu, hm, Bool.false_eq_true, if_false]
  simp only [processLineExpansion, hdbg]
  unfold emitStage
  simp only [hc, Bool.false_eq_true, if_false]
  simp [processModOps]

/-- The driver loop on a clean work list with no active definition copies
it to the output. -/
theorem driverRun_clean :
    ∀ (work : List SourceLine) (fuel k : Nat) (out : List SourceLine),
      work.length < fuel →
      (∀ l ∈ work, startsWithS "$" (pyStrip l.content) = false ∧
        debugLineSplit l.content = none) →
      driverRun fuel ⟨work, [], [], false, none, 0, k, out⟩ =
        some (Except.ok (out ++ work)) := by
  intro work
  induction work with
  | nil =>
    intro fuel k out hf _
    cases fuel with
    | zero => omega
    | succ f =>
      have hr : driverRun (f + 1) ⟨[], [], [], false, none, 0, k, out⟩ =
          some (Except.ok out) := rfl
      rw [hr, List.append_nil]
  | cons sl rest ih =>
    intro fuel k out hf hcl
    cases fuel with
    | zero => simp at hf
    | succ f =>
      have hstep := transpileStep_clean sl rest k out
        (hcl sl (List.mem_cons_self _ _)).1 (hcl sl (List.mem_cons_self _ _)).2
      have hrun : driverRun (f + 1) ⟨sl :: rest, [], [], false, none, 0, k, out⟩ =
          driverRun f ⟨rest, [], [], false, none, 0, 0, out ++ [sl]⟩ := by
        conv_lhs => unfold driverRun
        rw [hstep]
      rw [hrun, ih f 0 (out ++ [sl]) (by simpa using Nat.lt_of_succ_lt_succ hf)
        (fun l hl => hcl l (List.mem_cons_of_mem _ hl))]
      rw [List.append_assoc]
      rfl

/-- Loading line contents and reading them back is the identity. -/
theorem mkLines_contents (cs : List String) : (mkLines cs).map (·.content) = cs := by
  unfold mkLines
  rw [List.map_map]
  have hcomp : ((fun l : SourceLine => l.content) ∘
      (fun p : Nat × String => (⟨p.2, "main", p.1⟩ : SourceLine))) =
      (Prod.snd : Nat × String → String) := by
    funext p; rfl
  rw [hcomp, List.enumFrom_map_snd]

/-- Every loaded line's content is one of the given contents. -/
theorem mkLines_content_mem (cs : List String) (l : SourceLine) (h : l ∈ mkLines cs) :
    l.content ∈ cs := by
  have hm := List.mem_map_of_mem (fun x : SourceLine => x.content) h
  rwa [mkLines_contents] at hm

/-- Loading keeps the number of lines. -/
theorem mkLines_length (cs : List String) : (mkLines cs).length = cs.length := by
  unfold mkLines
  rw [List.length_map, List.enumFrom_length]

/-- C8 (amended): the body-producing pipeline is the identity — hence
idempotent — on input whose lines are free of directives (no stripped line
opening with `$`), declarations (`!macro`/`!method`/`!define`) and `?`
debug markers, provided additionally that dedenting the loaded stream
leaves it unchanged; without that proviso the pre-driver dedent of
`parse_namespace_content` (`pyx.py`, line 382) can uncover `$`/`!`/`?`
markers mid-line or normalize blank lines, which the first pass emits and
the second pass consumes (see the counterexample). -/
theorem c8_amended (cs : List String) (f1 f2 : Nat)
    (hclean : ∀ c ∈ cs, startsWithS "$" (pyStrip c) = false ∧
      matchMacroDecl (pyStrip c) = none ∧ matchDefineDecl (pyStrip c) = none ∧
      debugLineSplit c = none)
    (hded : dedentBlock (mkLines cs) = mkLines cs)
    (hf1 : cs.length < f1) (hf2 : cs.length < f2) :
    bodyContents false cs f1 = some (Except.ok cs) ∧
    bodyContents false cs f2 = some (Except.ok cs) := by
  have hlines : ∀ l ∈ mkLines cs, startsWithS "$" (pyStrip l.content) = false ∧
      matchMacroDecl (pyStrip l.content) = none ∧
      matchDefineDecl (pyStrip l.content) = none ∧
      debugLineSplit l.content = none :=
    fun l hl => hclean l.content (mkLines_content_mem cs l hl)
  have hext : extractNamespaces (mkLines cs) = ([], mkLines cs) :=
    extractGo_clean [] [] (mkLines cs) (fun l hl => (hlines l hl).1)
  have hpnc : parseNamespaceContent (mkLines cs) = ([], mkLines cs) := by
    unfold parseNamespaceContent
    dsimp only
    rw [hded]
    exact parseNSCGo_clean _ _ _
      (fun l hl => ⟨(hlines l hl).2.1, (hlines l hl).2.2.1⟩)
  have hsetup : transpileSetup false (mkLines cs) =
      ⟨mkLines cs, [], [], false, none, 0, 0, []⟩ := by
    unfold transpileSetup
    dsimp only
    rw [hext]
    dsimp only
    rw [hpnc]
    rfl
  have hpass : ∀ f, cs.length < f → bodyContents false cs f = some (Except.ok cs) := by
    intro f hf
    unfold bodyContents transpileLines
    rw [hsetup, driverRun_clean (mkLines cs) f 0 []
      (by rw [mkLines_length]; exact hf)
      (fun l hl => ⟨(hlines l hl).1, (hlines l hl).2.2.2⟩)]
    dsimp only [Option.map, Except.map]
    rw [List.nil_append, mkLines_contents]
  exact ⟨hpass f1 hf1, hpass f2 hf2⟩

/-- Witness for C8 at a concrete clean two-line program. -/
theorem c8_witness :
    bodyContents false ["a\n", "  b\n"] 3 = some (Except.ok ["a\n", "  b\n"]) ∧
    bodyContents false ["a\n", "  b\n"] 4 = some (Except.ok ["a\n", "  b\n"]) :=
  c8_amended ["a\n", "  b\n"] 3 4 (by decide) (by decide) (by decide) (by decide)
